import Mathlib

set_option maxHeartbeats 1000000

/-!
Shallow embedding of the tdo persistent store engine:
the entity model (`src/models`), the lifecycle operations (`src/services`),
and the storage / migration layer (`src/storage`).

Modelling conventions:
* `Uuid`, `Timestamp` (jiff instants) and `Date` (jiff civil dates) are
  opaque to every claim, so they are modelled as natural numbers.
* Rust `HashMap<Uuid, T>` fields are modelled as lists of entities keyed by
  their own `id` field (`kinsert` / `kfind` / `kmodify` below); every state
  reachable through the code keeps key-distinct entries.
* Effectful inputs (`Timestamp::now()`, `Uuid::new_v4()`, jiff's date
  parser) are passed as explicit arguments.
* `storage.save(store)` is recorded in an explicit `saves` log.
-/

deriving instance DecidableEq for Except

namespace Tdo

/-- UUIDs, modelled as naturals. -/
abbrev Uuid := Nat

/-- jiff `Timestamp` instants, opaque to all claims, modelled as naturals. -/
abbrev Timestamp := Nat

/-- jiff civil `Date`s, opaque to all claims, modelled as naturals. -/
abbrev Date := Nat

/-- Rust `str::contains` on character lists: `needle` occurs contiguously
inside `hay`. -/
def charsContains : (hay needle : List Char) → Bool
  | hay, needle =>
    if needle.isPrefixOf hay then true
    else
      match hay with
      | [] => false
      | _ :: t => charsContains t needle

/-- Rust `str::to_lowercase` followed by `str::contains`: case-insensitive
substring containment, used by every fuzzy name resolution in the
services (lowercasing is modelled per character, which agrees with the
Rust behaviour on ASCII names). -/
def strContainsCI (hay needle : String) : Bool :=
  charsContains (hay.data.map Char.toLower) (needle.data.map Char.toLower)

/-- Rust `str::parse::<u64>()`: an optional leading `+`, then a nonempty
run of ASCII digits, rejecting values that overflow `u64`. -/
def parseU64 (s : String) : Option Nat :=
  let digits :=
    match s.data with
    | c :: rest => if c = '+' then rest else s.data
    | [] => s.data
  if digits.length > 0 && digits.all Char.isDigit then
    let n := digits.foldl (fun acc c => acc * 10 + (c.toNat - 48)) 0
    if n < 2 ^ 64 then some n else none
  else none

/-- Rust `src/models/task.rs`: checklist sub-item. -/
structure ChecklistItem where
  id : Uuid
  title : String
  completed : Bool
deriving DecidableEq

/-- Rust `src/models/task.rs`: the `When` scheduling state. -/
inductive When where
  | inbox
  | today (evening : Bool)
  | someday
  | anytime
  | scheduled (d : Date)
deriving DecidableEq

instance : Inhabited When := ⟨When.inbox⟩

/-- Rust `src/models/task.rs`: the `Task` entity. -/
structure Task where
  id : Uuid
  task_number : Nat
  title : String
  notes : Option String
  project_id : Option Uuid
  area_id : Option Uuid
  tags : List String
  whenState : When
  deadline : Option Date
  defer_until : Option Date
  checklist : List ChecklistItem
  completed_at : Option Timestamp
  deleted_at : Option Timestamp
  created_at : Timestamp
deriving DecidableEq

/-- Rust `Task::default()` (derived `Default`, nil UUID and empty fields). -/
def Task.default : Task :=
  ⟨0, 0, "", none, none, none, [], When.inbox, none, none, [], none, none, 0⟩

instance : Inhabited Task := ⟨Task.default⟩

/-- Rust `src/models/project.rs`: the `Project` entity. -/
structure Project where
  id : Uuid
  name : String
  slug : String
  area_id : Option Uuid
  notes : Option String
  deadline : Option Date
  completed_at : Option Timestamp
  deleted_at : Option Timestamp
  created_at : Timestamp
deriving DecidableEq

/-- Rust `Project::default()` (derived `Default`, nil UUID). -/
def Project.default : Project :=
  ⟨0, "", "", none, none, none, none, none, 0⟩

instance : Inhabited Project := ⟨Project.default⟩

/-- Rust `src/models/area.rs`: the `Area` entity. -/
structure Area where
  id : Uuid
  name : String
  slug : String
  deleted_at : Option Timestamp
deriving DecidableEq

/-- Rust `Area::default()` (derived `Default`, nil UUID). -/
def Area.default : Area :=
  ⟨0, "", "", none⟩

instance : Inhabited Area := ⟨Area.default⟩

/-- Rust `HashMap::insert(key x, x)` on the keyed-list model: replace the entry
carrying the same key, or append if absent. -/
def kinsert (key : α → Uuid) (x : α) (l : List α) : List α :=
  if l.any (fun y => key y == key x) then
    l.map (fun y => if key y = key x then x else y)
  else l ++ [x]

/-- Rust `HashMap::get(i)` on the keyed-list model. -/
def kfind (key : α → Uuid) (i : Uuid) (l : List α) : Option α :=
  l.find? (fun y => key y == i)

/-- Rust `HashMap::get_mut(i)` followed by a field update `f`. -/
def kmodify (key : α → Uuid) (i : Uuid) (f : α → α) (l : List α) : List α :=
  l.map (fun y => if key y = i then f y else y)

/-- Rust `src/models/store.rs`: `CURRENT_VERSION`. -/
def CURRENT_VERSION : Nat := 3

/-- Rust `src/models/store.rs`: the on-disk `StoredStore` (entity `Vec`s). -/
structure StoredStore where
  version : Nat
  next_task_number : Nat
  tasks : List Task
  projects : List Project
  areas : List Area
deriving DecidableEq

/-- Rust `StoredStore::default()`. -/
def StoredStore.default : StoredStore :=
  ⟨CURRENT_VERSION, 1, [], [], []⟩

/-- Rust `src/models/store.rs`: the in-memory `Store` (entity maps, modelled as
keyed lists). -/
structure Store where
  version : Nat
  next_task_number : Nat
  tasks : List Task
  projects : List Project
  areas : List Area
deriving DecidableEq

/-- Rust `Store::default()`: `CURRENT_VERSION`, counter 1, empty maps. -/
def Store.default : Store :=
  ⟨CURRENT_VERSION, 1, [], [], []⟩

/-- Rust `Store::from_stored`: collect each `Vec` into a map keyed by `id`. -/
def Store.from_stored (s : StoredStore) : Store where
  version := s.version
  next_task_number := s.next_task_number
  tasks := s.tasks.foldl (fun m t => kinsert Task.id t m) []
  projects := s.projects.foldl (fun m p => kinsert Project.id p m) []
  areas := s.areas.foldl (fun m a => kinsert Area.id a m) []

/-- Rust `Store::to_stored`: collect the map values into `Vec`s. -/
def Store.to_stored (s : Store) : StoredStore where
  version := s.version
  next_task_number := s.next_task_number
  tasks := s.tasks
  projects := s.projects
  areas := s.areas

/-- Rust `Store::add_task`: assign `next_task_number`, bump the counter, insert. -/
def Store.add_task (s : Store) (task : Task) : Store :=
  let task := { task with task_number := s.next_task_number }
  { s with
    next_task_number := s.next_task_number + 1
    tasks := kinsert Task.id task s.tasks }

/-- Rust `Store::add_project`. -/
def Store.add_project (s : Store) (p : Project) : Store :=
  { s with projects := kinsert Project.id p s.projects }

/-- Rust `Store::add_area`. -/
def Store.add_area (s : Store) (a : Area) : Store :=
  { s with areas := kinsert Area.id a s.areas }

/-- Rust `Store::get_task`. -/
def Store.get_task (s : Store) (i : Uuid) : Option Task :=
  kfind Task.id i s.tasks

/-- Rust `Store::get_task_by_number`: linear scan over all tasks, deleted ones
included. -/
def Store.get_task_by_number (s : Store) (n : Nat) : Option Task :=
  s.tasks.find? (fun t => t.task_number == n)

/-- Rust `Store::get_project`. -/
def Store.get_project (s : Store) (i : Uuid) : Option Project :=
  kfind Project.id i s.projects

/-- Rust `Store::get_area`. -/
def Store.get_area (s : Store) (i : Uuid) : Option Area :=
  kfind Area.id i s.areas

/-- Rust `Store::get_active_tasks`. -/
def Store.get_active_tasks (s : Store) : List Task :=
  s.tasks.filter (fun t => t.deleted_at.isNone)

/-- Rust `Store::get_active_projects`. -/
def Store.get_active_projects (s : Store) : List Project :=
  s.projects.filter (fun p => p.deleted_at.isNone)

/-- Rust `Store::get_active_areas`. -/
def Store.get_active_areas (s : Store) : List Area :=
  s.areas.filter (fun a => a.deleted_at.isNone)

/-- Rust `Store::get_deleted_tasks`. -/
def Store.get_deleted_tasks (s : Store) : List Task :=
  s.tasks.filter (fun t => t.deleted_at.isSome)

/-- Rust `Store::get_deleted_projects`. -/
def Store.get_deleted_projects (s : Store) : List Project :=
  s.projects.filter (fun p => p.deleted_at.isSome)

/-- Rust `Store::get_deleted_areas`. -/
def Store.get_deleted_areas (s : Store) : List Area :=
  s.areas.filter (fun a => a.deleted_at.isSome)

/-- Rust `Store::get_tasks_for_project`. -/
def Store.get_tasks_for_project (s : Store) (pid : Uuid) : List Task :=
  s.tasks.filter (fun t => t.project_id == some pid)

/-- Rust `Store::get_projects_for_area`. -/
def Store.get_projects_for_area (s : Store) (aid : Uuid) : List Project :=
  s.projects.filter (fun p => p.area_id == some aid)

/-- Rust `Store::get_tasks_for_area` (area-direct tasks: no project). -/
def Store.get_tasks_for_area (s : Store) (aid : Uuid) : List Task :=
  s.tasks.filter (fun t => t.area_id == some aid && t.project_id.isNone)

/-- A minimal model of `serde_json::Value` sufficient for the storage layer:
numbers carry the integer value (`as_u64` is only ever called on the
`version` field). -/
inductive Json where
  | null
  | bool (b : Bool)
  | num (n : Int)
  | str (s : String)
  | arr (xs : List Json)
  | obj (fields : List (String × Json))

/-- Rust `serde_json::Value::get(key)` on an object (first binding wins);
`None` on non-objects. -/
def Json.get (v : Json) (key : String) : Option Json :=
  match v with
  | .obj fields => (fields.find? (fun f => f.fst == key)).map Prod.snd
  | _ => none

/-- Rust `serde_json::Value::as_u64`: the value if it is an integer representable
as a `u64`. -/
def Json.as_u64 (v : Json) : Option Nat :=
  match v with
  | .num n => if 0 ≤ n ∧ n < 2 ^ 64 then some n.toNat else none
  | _ => none

/-- Rust `src/storage.rs`: the `StorageError` taxonomy.  I/O and serde payloads
(paths, io/serde sources) are irrelevant to every claim and dropped. -/
inductive StorageError where
  | loadFailed
  | parseFailed
  | saveFailed
  | serializeFailed
  | backupFailed
  | cleanupFailed
  | futureVersion (v : Nat)
  | unsupportedVersion (v : Nat)
deriving DecidableEq

/-- Rust `src/storage/migrations.rs`: `MigrationFn`. -/
abbrev MigrationFn := Json → Except StorageError Json

/-- Rust `src/storage/migrations.rs`: `get_migrations()` — the registry is empty
("Future migrations will be added here"). -/
def get_migrations : List MigrationFn := []

/-- Rust `src/storage/migrations.rs`: `detect_version` on an already-parsed
document (the Rust function parses the file content first; a missing
`version` field means version 1).  The Rust `as u32` cast truncates. -/
def detect_version (v : Json) : Except StorageError Nat :=
  match v.get "version" with
  | some w =>
    match w.as_u64 with
    | some n => .ok (n % 2 ^ 32)
    | none => .error .parseFailed
  | none => .ok 1

/-- Rust `src/storage/migrations.rs`: `apply_migrations`, applying each
registered step for versions `from..to` in sequence.  The Rust
`(version - 1) as usize` index is a `u32` subtraction; for `version ≥ 1`
(every version the loop can see from a `u64`-detected version) it agrees
with truncated `Nat` subtraction. -/
def apply_migrations (data : Json) (fromVersion toVersion : Nat) :
    Except StorageError Json :=
  if fromVersion = toVersion then .ok data
  else if fromVersion > toVersion then .error (.futureVersion fromVersion)
  else go data (List.range' fromVersion (toVersion - fromVersion))
where
  /-- The `for version in from..to` loop body. -/
  go : Json → List Nat → Except StorageError Json
  | d, [] => .ok d
  | d, v :: vs =>
    let migration_idx := v - 1
    match get_migrations[migration_idx]? with
    | none => .error (.unsupportedVersion v)
    | some m =>
      match m d with
      | .ok d2 => go d2 vs
      | .error e => .error e

/-- Rust `obj.insert("version", CURRENT_VERSION)` after migration in
`JsonFileStorage::load`: replace the binding if present, else append. -/
def setVersion (v : Json) (n : Nat) : Json :=
  match v with
  | .obj fields =>
    if fields.any (fun f => f.fst == "version") then
      .obj (fields.map (fun f => if f.fst = "version" then ("version", Json.num n) else f))
    else .obj (fields ++ [("version", Json.num n)])
  | other => other

/-- Rust `JsonFileStorage::load` on a present, successfully parsed file content
`content`.  Deserialization of the migrated document into `StoredStore`
(serde derive) is external to every claim and passed in as `deser`,
universally quantified in the theorems below. -/
def load (deser : Json → Except StorageError StoredStore) (content : Json) :
    Except StorageError Store := do
  let file_version ← detect_version content
  if CURRENT_VERSION < file_version then
    throw (.futureVersion file_version)
  else do
    let data ←
      if file_version < CURRENT_VERSION then
        apply_migrations content file_version CURRENT_VERSION
      else pure content
    let data := setVersion data CURRENT_VERSION
    let stored ← deser data
    pure (Store.from_stored stored)

/-- Outcome of a lifecycle operation: the returned `Result`, the store
after the call (the Rust functions take `&mut Store`), and the log of
`storage.save` calls (each entry is the store state that was saved;
persistence itself always succeeds in this model, so the `Storage`
error variants below are never produced). -/
structure SvcOut (ε α : Type) where
  result : Except ε α
  store : Store
  saves : List Store

namespace Tasks

/-- Rust `src/services/tasks.rs`: `AddTaskError` (the `Storage` variant is
unreachable in this model). -/
inductive AddTaskError where
  | projectNotFound (name : String)
  | ambiguousProjectName (names : List String)
  | areaNotFound (name : String)
  | ambiguousAreaName (names : List String)
  | invalidDeadline (s : String)
  | storage (e : StorageError)
deriving DecidableEq

/-- Rust `src/services/tasks.rs`: `AddTaskParameters`. -/
structure AddTaskParameters where
  title : String
  notes : Option String
  whenState : When
  deadline : Option String
  project : Option String
  area : Option String
  tags : List String

/-- Rust `src/services/tasks.rs`: step 1 of `add_task`, resolving the
optional project name among active projects. -/
def resolve_project_step (store : Store) (project : Option String) :
    Except AddTaskError (Option Uuid) :=
  match project with
  | some project_name =>
    let matching_projects := store.get_active_projects.filter
      (fun p => strContainsCI p.name project_name)
    match matching_projects with
    | [] => .error (.projectNotFound project_name)
    | [p] => .ok (some p.id)
    | _ => .error (.ambiguousProjectName (matching_projects.map Project.name))
  | none => .ok none

/-- Rust `src/services/tasks.rs`: step 2 of `add_task`, resolving the
optional area name among active areas. -/
def resolve_area_step (store : Store) (area : Option String) :
    Except AddTaskError (Option Uuid) :=
  match area with
  | some area_name =>
    let matching_areas := store.get_active_areas.filter
      (fun a => strContainsCI a.name area_name)
    match matching_areas with
    | [] => .error (.areaNotFound area_name)
    | [a] => .ok (some a.id)
    | _ => .error (.ambiguousAreaName (matching_areas.map Area.name))
  | none => .ok none

/-- Rust `src/services/tasks.rs`: step 3 of `add_task`, parsing the
optional deadline string with jiff's date parser `parseDate`. -/
def parse_deadline_step (parseDate : String → Option Date)
    (deadline : Option String) : Except AddTaskError (Option Date) :=
  match deadline with
  | some deadline_str =>
    match parseDate deadline_str with
    | some d => .ok (some d)
    | none => .error (.invalidDeadline deadline_str)
  | none => .ok none

/-- Rust `src/services/tasks.rs`: `add_task`.  `newId` stands for
`Uuid::new_v4()`, `now` for `jiff::Timestamp::now()`, and `parseDate` for
jiff's civil-date parser (external crate). -/
def add_task (store : Store) (newId : Uuid) (now : Timestamp)
    (parseDate : String → Option Date) (parameters : AddTaskParameters) :
    SvcOut AddTaskError Task :=
  -- 1. Validate and resolve project name to project ID
  match resolve_project_step store parameters.project with
  | .error e => ⟨.error e, store, []⟩
  | .ok project_id =>
    -- 2. Validate and resolve area name to area ID
    match resolve_area_step store parameters.area with
    | .error e => ⟨.error e, store, []⟩
    | .ok area_id =>
      -- 3. Parse deadline if provided
      match parse_deadline_step parseDate parameters.deadline with
      | .error e => ⟨.error e, store, []⟩
      | .ok deadline =>
        -- 4. Create the task (task_number assigned by store.add_task)
        let task : Task :=
          { id := newId
            task_number := 0
            title := parameters.title
            notes := parameters.notes
            project_id := project_id
            area_id := area_id
            tags := parameters.tags
            whenState := parameters.whenState
            deadline := deadline
            defer_until := none
            checklist := []
            completed_at := none
            deleted_at := none
            created_at := now }
        let task_id := task.id
        -- 5. Add to store (assigns task_number); 6. persist; 7. return
        let store2 := store.add_task task
        ⟨.ok ((store2.get_task task_id).getD Task.default), store2, [store2]⟩

/-- Rust `src/services/tasks.rs`: `CompleteTaskError`. -/
inductive CompleteTaskError where
  | taskNotFound (s : String)
  | ambiguousTaskName (names : List String)
  | storage (e : StorageError)
deriving DecidableEq

/-- Rust `src/services/tasks.rs`: the `chosen`-task computation at the top
of `complete_task`: numeric identifiers are looked up by `task_number`
over all tasks; otherwise fuzzy title matching over active,
not-yet-completed tasks. -/
def complete_resolution (store : Store) (task_number_or_fuzzy_name : String) :
    Except CompleteTaskError Task :=
  match parseU64 task_number_or_fuzzy_name with
  | some task_number =>
    match store.get_task_by_number task_number with
    | some t => .ok t
    | none => .error (.taskNotFound task_number_or_fuzzy_name)
  | none =>
    let matching_tasks :=
      (store.get_active_tasks.filter (fun t => t.completed_at.isNone)).filter
        (fun t => strContainsCI t.title task_number_or_fuzzy_name)
    match matching_tasks with
    | [] => .error (.taskNotFound task_number_or_fuzzy_name)
    | [t] => .ok t
    | _ => .error (.ambiguousTaskName (matching_tasks.map Task.title))

/-- Rust `src/services/tasks.rs`: `complete_task`: resolve (above), then
mark the resolved task completed at `now` and persist. -/
def complete_task (store : Store) (now : Timestamp)
    (task_number_or_fuzzy_name : String) : SvcOut CompleteTaskError Task :=
  match complete_resolution store task_number_or_fuzzy_name with
  | .error e => ⟨.error e, store, []⟩
  | .ok task =>
    let updated_task := { task with completed_at := some now }
    let store2 := { store with tasks := kinsert Task.id updated_task store.tasks }
    ⟨.ok updated_task, store2, [store2]⟩

/-- Rust `src/services/tasks.rs`: `DeleteTaskError`. -/
inductive DeleteTaskError where
  | taskNotFound (s : String)
  | taskAlreadyDeleted (title : String)
  | ambiguousTaskName (names : List String)
  | storage (e : StorageError)
deriving DecidableEq

/-- Rust `src/services/tasks.rs`: the `chosen`-task computation at the top
of `delete_task`: numeric identifiers by number over all tasks, fuzzy
identifiers over active tasks only. -/
def delete_resolution (store : Store) (task_number_or_fuzzy_name : String) :
    Except DeleteTaskError Task :=
  match parseU64 task_number_or_fuzzy_name with
  | some task_number =>
    match store.get_task_by_number task_number with
    | some t => .ok t
    | none => .error (.taskNotFound task_number_or_fuzzy_name)
  | none =>
    let matching_tasks := store.get_active_tasks.filter
      (fun t => strContainsCI t.title task_number_or_fuzzy_name)
    match matching_tasks with
    | [] => .error (.taskNotFound task_number_or_fuzzy_name)
    | [t] => .ok t
    | _ => .error (.ambiguousTaskName (matching_tasks.map Task.title))

/-- Rust `src/services/tasks.rs`: `delete_task`: resolve (above), reject an
already-deleted resolvent, else stamp `deleted_at` and persist. -/
def delete_task (store : Store) (now : Timestamp)
    (task_number_or_fuzzy_name : String) : SvcOut DeleteTaskError Task :=
  match delete_resolution store task_number_or_fuzzy_name with
  | .error e => ⟨.error e, store, []⟩
  | .ok task =>
    if task.deleted_at.isSome then
      ⟨.error (.taskAlreadyDeleted task.title), store, []⟩
    else
      let updated_task := { task with deleted_at := some now }
      let store2 := { store with tasks := kinsert Task.id updated_task store.tasks }
      ⟨.ok updated_task, store2, [store2]⟩

/-- Rust `src/services/tasks.rs`: `RestoreTaskError`. -/
inductive RestoreTaskError where
  | taskNotFound (s : String)
  | taskNotDeleted (title : String)
  | storage (e : StorageError)
deriving DecidableEq

/-- Rust `src/services/tasks.rs`: `restore_task`: strictly by number; rejects a
not-deleted resolvent. -/
def restore_task (store : Store) (task_number : Nat) :
    SvcOut RestoreTaskError Task :=
  match store.get_task_by_number task_number with
  | none => ⟨.error (.taskNotFound (toString task_number)), store, []⟩
  | some task =>
    if task.deleted_at.isNone then
      ⟨.error (.taskNotDeleted task.title), store, []⟩
    else
      let restored_task := { task with deleted_at := none }
      let store2 := { store with tasks := kinsert Task.id restored_task store.tasks }
      ⟨.ok restored_task, store2, [store2]⟩

end Tasks

namespace Areas

/-- Rust `src/services/areas.rs`: `CreateAreaError` (neither variant is ever
produced in this model: the name-collision check is advisory only and
storage errors are external). -/
inductive CreateAreaError where
  | areaAlreadyExists (name : String)
  | storage (e : StorageError)
deriving DecidableEq

/-- Rust `src/services/areas.rs`: `create_area`.  `slugify` is an external crate
function, passed in as `slugify`; the struct-update `..Area::default()`
gives the new area the nil UUID (modelled as 0). -/
def create_area (store : Store) (slugify : String → String) (name : String) :
    SvcOut CreateAreaError Area :=
  let area_slug := slugify name
  let area : Area := { Area.default with name := name, slug := area_slug }
  let area_id := area.id
  let store2 := store.add_area area
  ⟨.ok ((store2.get_area area_id).getD Area.default), store2, [store2]⟩

/-- Rust `src/services/areas.rs`: `DeleteAreaError` — note there is no
ambiguity variant: two or more fuzzy matches are folded into
`AreaNotFound`. -/
inductive DeleteAreaError where
  | areaNotFound (name : String)
  | storage (e : StorageError)
deriving DecidableEq

/-- Rust `src/services/areas.rs`: `DeleteAreaResult`. -/
structure DeleteAreaResult where
  area : Area
  cascaded_projects_count : Nat
  cascaded_tasks_count : Nat
deriving DecidableEq

/-- Stamp one task's `deleted_at` (the body of the cascade loops). -/
def stampTask (now : Timestamp) (s : Store) (task_id : Uuid) : Store :=
  { s with
    tasks := kmodify Task.id task_id
      (fun t => { t with deleted_at := some now }) s.tasks }

/-- Stamp one project's `deleted_at`. -/
def stampProject (now : Timestamp) (s : Store) (project_id : Uuid) : Store :=
  { s with
    projects := kmodify Project.id project_id
      (fun p => { p with deleted_at := some now }) s.projects }

/-- Rust `src/services/areas.rs`: the body of the per-project cascade loop in
`delete_area`: collect the project's still-active task ids from the
current store state, stamp them, and add them to the running count. -/
def cascadeStep (now : Timestamp) (acc : Nat × Store) (project_id : Uuid) :
    Nat × Store :=
  let task_ids :=
    ((acc.2.get_tasks_for_project project_id).filter
      (fun t => t.deleted_at.isNone)).map Task.id
  (acc.1 + task_ids.length, task_ids.foldl (stampTask now) acc.2)

/-- Rust `src/services/areas.rs`: `delete_area`: unambiguous fuzzy resolution
among active areas (2+ matches fold into `AreaNotFound`), then cascade:
for each active project of the area stamp its active tasks, then stamp
those projects, then the area-direct active tasks, then the area itself,
all with the single timestamp `now`. -/
def delete_area (store : Store) (now : Timestamp) (name : String) :
    SvcOut DeleteAreaError DeleteAreaResult :=
  let matching_areas := store.get_active_areas.filter
    (fun a => strContainsCI a.name name)
  match matching_areas with
  | [] => ⟨.error (.areaNotFound name), store, []⟩
  | [area] =>
    let area_id := area.id
    let project_ids_to_delete :=
      ((store.get_projects_for_area area_id).filter
        (fun p => p.deleted_at.isNone)).map Project.id
    -- For each project, cascade delete its tasks
    let afterTasks := project_ids_to_delete.foldl (cascadeStep now) (0, store)
    -- Mark all projects in this area as deleted
    let st2 := project_ids_to_delete.foldl (stampProject now) afterTasks.2
    -- Also delete tasks directly under this area (not in a project)
    let direct_task_ids :=
      ((st2.get_tasks_for_area area_id).filter
        (fun t => t.deleted_at.isNone)).map Task.id
    let total_tasks_deleted := afterTasks.1 + direct_task_ids.length
    let st3 := direct_task_ids.foldl (stampTask now) st2
    -- Mark area as deleted
    let st4 :=
      { st3 with
        areas := kmodify Area.id area_id
          (fun a => { a with deleted_at := some now }) st3.areas }
    ⟨.ok
      { area := (st4.get_area area_id).getD Area.default
        cascaded_projects_count := project_ids_to_delete.length
        cascaded_tasks_count := total_tasks_deleted },
      st4, [st4]⟩
  | _ =>
    -- If ambiguous, require exact match or fail
    ⟨.error (.areaNotFound name), store, []⟩

/-- Rust `src/services/areas.rs`: `RestoreAreaError`. -/
inductive RestoreAreaError where
  | areaNotFound (name : String)
  | areaNotDeleted (name : String)
  | storage (e : StorageError)
deriving DecidableEq

/-- Rust `src/services/areas.rs`: `restore_area`: unambiguous fuzzy resolution
among deleted areas (2+ matches fold into `AreaNotFound`); clears only the
area's own `deleted_at` (children are left deleted). -/
def restore_area (store : Store) (name : String) : SvcOut RestoreAreaError Area :=
  let matching_areas := store.get_deleted_areas.filter
    (fun a => strContainsCI a.name name)
  match matching_areas with
  | [] => ⟨.error (.areaNotFound name), store, []⟩
  | [area] =>
    let area_id := area.id
    let store2 :=
      { store with
        areas := kmodify Area.id area_id
          (fun a => { a with deleted_at := none }) store.areas }
    ⟨.ok ((store2.get_area area_id).getD Area.default), store2, [store2]⟩
  | _ => ⟨.error (.areaNotFound name), store, []⟩

end Areas

namespace Projects

/-- Rust `src/services/projects.rs`: `CreateProjectError` (never produced in
this model, as for areas). -/
inductive CreateProjectError where
  | projectAlreadyExists (name : String)
  | storage (e : StorageError)
deriving DecidableEq

/-- Rust `src/services/projects.rs`: `create_project` (fresh `Uuid::new_v4()`
passed as `newId`, `jiff::Timestamp::now()` as `now`). -/
def create_project (store : Store) (newId : Uuid) (now : Timestamp)
    (slugify : String → String) (name : String) :
    SvcOut CreateProjectError Project :=
  let project_slug := slugify name
  let project : Project :=
    { Project.default with
      id := newId, name := name, slug := project_slug, created_at := now }
  let project_id := project.id
  let store2 := store.add_project project
  ⟨.ok ((store2.get_project project_id).getD Project.default), store2, [store2]⟩

/-- Rust `src/services/projects.rs`: `DeleteProjectError` — here ambiguity IS a
distinct variant, unlike area deletion. -/
inductive DeleteProjectError where
  | projectNotFound (name : String)
  | projectAlreadyDeleted (name : String)
  | ambiguousProjectName (names : List String)
  | storage (e : StorageError)
deriving DecidableEq

/-- Rust `src/services/projects.rs`: `DeleteProjectResult`. -/
structure DeleteProjectResult where
  project : Project
  cascaded_tasks_count : Nat
deriving DecidableEq

/-- Rust `src/services/projects.rs`: `delete_project`: fuzzy resolution among
active projects surfacing `AmbiguousProjectName` on 2+ matches, then
cascade-stamp the project's active tasks and the project itself with the
single timestamp `now`. -/
def delete_project (store : Store) (now : Timestamp) (name : String) :
    SvcOut DeleteProjectError DeleteProjectResult :=
  let matching_projects := store.get_active_projects.filter
    (fun p => strContainsCI p.name name)
  match matching_projects with
  | [] => ⟨.error (.projectNotFound name), store, []⟩
  | [project] =>
    let project_id := project.id
    let task_ids_to_delete :=
      ((store.get_tasks_for_project project_id).filter
        (fun t => t.deleted_at.isNone)).map Task.id
    let cascade_count := task_ids_to_delete.length
    let st1 := task_ids_to_delete.foldl (Areas.stampTask now) store
    let st2 :=
      { st1 with
        projects := kmodify Project.id project_id
          (fun p => { p with deleted_at := some now }) st1.projects }
    ⟨.ok
      { project := (st2.get_project project_id).getD Project.default
        cascaded_tasks_count := cascade_count },
      st2, [st2]⟩
  | _ =>
    ⟨.error (.ambiguousProjectName (matching_projects.map Project.name)),
      store, []⟩

/-- Rust `src/services/projects.rs`: `RestoreProjectError`. -/
inductive RestoreProjectError where
  | projectNotFound (name : String)
  | projectNotDeleted (name : String)
  | storage (e : StorageError)
deriving DecidableEq

/-- Rust `src/services/projects.rs`: `restore_project`: unambiguous fuzzy
resolution among deleted projects (2+ matches fold into
`ProjectNotFound`); clears only the project's own `deleted_at`. -/
def restore_project (store : Store) (name : String) :
    SvcOut RestoreProjectError Project :=
  let matching_projects := store.get_deleted_projects.filter
    (fun p => strContainsCI p.name name)
  match matching_projects with
  | [] => ⟨.error (.projectNotFound name), store, []⟩
  | [project] =>
    let project_id := project.id
    let store2 :=
      { store with
        projects := kmodify Project.id project_id
          (fun p => { p with deleted_at := none }) store.projects }
    ⟨.ok ((store2.get_project project_id).getD Project.default), store2, [store2]⟩
  | _ => ⟨.error (.projectNotFound name), store, []⟩

end Projects

/-- A deserializer that always succeeds, used to show that load failures in
the claims below happen before deserialization is reached. -/
def deserOk : Json → Except StorageError StoredStore :=
  fun _ => .ok StoredStore.default

/-- C9: for every store file whose detected schema version is strictly
greater than `CURRENT_VERSION`, `load` fails with `FutureVersion` carrying
that version, for every deserializer (so before any deserialization into
the working representation, and with no retry or downgrade path);
`apply_migrations` with `from > to` returns `FutureVersion from`, and with
`from = to` returns the document unchanged. -/
theorem c9_future_version_fatal :
    (∀ (deser : Json → Except StorageError StoredStore) (content : Json)
        (v : Nat), detect_version content = .ok v → CURRENT_VERSION < v →
        load deser content = .error (.futureVersion v)) ∧
    (∀ (data : Json) (fromVersion toVersion : Nat),
        toVersion < fromVersion →
        apply_migrations data fromVersion toVersion =
          .error (.futureVersion fromVersion)) ∧
    (∀ (data : Json) (v : Nat), apply_migrations data v v = .ok data) := by
  refine ⟨?_, ?_, ?_⟩
  · intro deser content v hdet hv
    simp [load, hdet, hv, Bind.bind, Except.bind, throw, throwThe,
      MonadExceptOf.throw]
  · intro data f t hlt
    have hne : f ≠ t := by omega
    simp [apply_migrations, hne, hlt]
  · intro data v
    simp [apply_migrations]

/-- C9 witness: a parsed file content carrying `version = 5` fails the
load with `FutureVersion 5`; migrating from 5 to 3 is `FutureVersion 5`;
migrating from 3 to 3 is the identity. -/
theorem c9_future_version_fatal_witness :
    load deserOk (Json.obj [("version", Json.num 5)]) =
      .error (.futureVersion 5) ∧
    apply_migrations (Json.obj []) 5 3 = .error (.futureVersion 5) ∧
    apply_migrations (Json.obj []) 3 3 = .ok (Json.obj []) := by
  refine ⟨?_, ?_, ?_⟩
  · exact c9_future_version_fatal.1 deserOk _ 5 rfl (by decide)
  · exact c9_future_version_fatal.2.1 _ 5 3 (by decide)
  · exact c9_future_version_fatal.2.2 _ 3

/-- C1 counterexample: a store file whose JSON document has no `version`
field does NOT load successfully: even with a deserializer that always
succeeds, `load` on the document `{}` fails with `UnsupportedVersion 1`,
because the migration registry is empty (there is no v1-to-v2 step at
all). -/
theorem c1_versionless_load_fails :
    load deserOk (Json.obj []) = .error (.unsupportedVersion 1) := rfl

/-- C1 amended: a store file whose JSON document has no `version` field is
detected as version 1, and since `get_migrations()` is empty while
`CURRENT_VERSION = 3`, the load then always fails with
`UnsupportedVersion 1` (for every deserializer); no migration and no
`task_number` backfill is performed. -/
theorem c1_versionless_detects_v1_then_unsupported
    (deser : Json → Except StorageError StoredStore)
    (fields : List (String × Json))
    (hnov : fields.find? (fun f => f.fst == "version") = none) :
    detect_version (Json.obj fields) = .ok 1 ∧
    load deser (Json.obj fields) = .error (.unsupportedVersion 1) := by
  have hdet : detect_version (Json.obj fields) = .ok 1 := by
    simp [detect_version, Json.get, hnov]
  refine ⟨hdet, ?_⟩
  have hmig : apply_migrations (Json.obj fields) 1 CURRENT_VERSION =
      .error (.unsupportedVersion 1) := by
    simp [apply_migrations, CURRENT_VERSION, List.range',
      apply_migrations.go, get_migrations]
  have h3 : apply_migrations (Json.obj fields) 1 3 =
      .error (.unsupportedVersion 1) := hmig
  simp [load, hdet, CURRENT_VERSION, h3, Bind.bind, Except.bind]

/-- C1 amended witness: the concrete versionless document `{"tasks": []}`
is detected as version 1 and fails to load with `UnsupportedVersion 1`. -/
theorem c1_versionless_detects_v1_then_unsupported_witness :
    detect_version (Json.obj [("tasks", Json.arr [])]) = .ok 1 ∧
    load deserOk (Json.obj [("tasks", Json.arr [])]) =
      .error (.unsupportedVersion 1) :=
  c1_versionless_detects_v1_then_unsupported deserOk
    [("tasks", Json.arr [])] rfl

/-- A store operation, for reasoning about arbitrary interleavings:
the Entity Store primitives plus every lifecycle operation of the
services layer (each carrying its effectful inputs). -/
inductive Op where
  | storeAddTask (t : Task)
  | storeAddProject (p : Project)
  | storeAddArea (a : Area)
  | svcAddTask (newId : Uuid) (now : Timestamp)
      (parseDate : String → Option Date) (params : Tasks.AddTaskParameters)
  | svcCompleteTask (now : Timestamp) (ident : String)
  | svcDeleteTask (now : Timestamp) (ident : String)
  | svcRestoreTask (n : Nat)
  | svcCreateArea (slugify : String → String) (name : String)
  | svcDeleteArea (now : Timestamp) (name : String)
  | svcRestoreArea (name : String)
  | svcCreateProject (newId : Uuid) (now : Timestamp)
      (slugify : String → String) (name : String)
  | svcDeleteProject (now : Timestamp) (name : String)
  | svcRestoreProject (name : String)

/-- Effect of one operation on the store (for services, the store the Rust
`&mut Store` holds after the call, whether it succeeded or erred). -/
def applyOp (s : Store) : Op → Store
  | .storeAddTask t => s.add_task t
  | .storeAddProject p => s.add_project p
  | .storeAddArea a => s.add_area a
  | .svcAddTask newId now pd ps => (Tasks.add_task s newId now pd ps).store
  | .svcCompleteTask now ident => (Tasks.complete_task s now ident).store
  | .svcDeleteTask now ident => (Tasks.delete_task s now ident).store
  | .svcRestoreTask n => (Tasks.restore_task s n).store
  | .svcCreateArea slugify name => (Areas.create_area s slugify name).store
  | .svcDeleteArea now name => (Areas.delete_area s now name).store
  | .svcRestoreArea name => (Areas.restore_area s name).store
  | .svcCreateProject newId now slugify name =>
      (Projects.create_project s newId now slugify name).store
  | .svcDeleteProject now name => (Projects.delete_project s now name).store
  | .svcRestoreProject name => (Projects.restore_project s name).store

/-- Run a sequence of operations. -/
def runOps (s : Store) (ops : List Op) : Store :=
  ops.foldl applyOp s

/-- The `task_number`s handed out along a run: each operation consumes the
counter values between its pre- and post-state (`Store.add_task` is the
only primitive that moves the counter, handing the pre-value to the
inserted task). -/
def assignedNumbers (s : Store) : List Op → List Nat
  | [] => []
  | op :: ops =>
    let s2 := applyOp s op
    List.range' s.next_task_number (s2.next_task_number - s.next_task_number)
      ++ assignedNumbers s2 ops

/-- Generic helper: a fold whose step preserves a projection preserves it. -/
theorem foldl_proj_const {σ β : Type} (proj : σ → Nat) (f : σ → β → σ)
    (h : ∀ a b, proj (f a b) = proj a) :
    ∀ (l : List β) (a : σ), proj (l.foldl f a) = proj a := by
  intro l
  induction l with
  | nil => intro a; rfl
  | cons b t ih => intro a; rw [List.foldl_cons, ih, h]

/-- The cascade stamping loops never touch the counter. -/
theorem stampTask_next (now : Timestamp) (s : Store) (i : Uuid) :
    (Areas.stampTask now s i).next_task_number = s.next_task_number := rfl

/-- Project stamping never touches the counter. -/
theorem stampProject_next (now : Timestamp) (s : Store) (i : Uuid) :
    (Areas.stampProject now s i).next_task_number = s.next_task_number := rfl

/-- Every operation moves `next_task_number` by exactly the number of
`Store.add_task` calls it performs: +1 for a task add that reaches the
store, 0 for everything else — in particular it never decreases. -/
theorem applyOp_next (s : Store) (op : Op) :
    (applyOp s op).next_task_number = s.next_task_number + 1 ∨
    (applyOp s op).next_task_number = s.next_task_number := by
  cases op with
  | storeAddTask t => exact Or.inl rfl
  | storeAddProject p => exact Or.inr rfl
  | storeAddArea a => exact Or.inr rfl
  | svcAddTask newId now pd ps =>
    simp only [applyOp]
    cases h1 : Tasks.resolve_project_step s ps.project with
    | error e => exact Or.inr (by simp [Tasks.add_task, h1])
    | ok project_id =>
      cases h2 : Tasks.resolve_area_step s ps.area with
      | error e => exact Or.inr (by simp [Tasks.add_task, h1, h2])
      | ok area_id =>
        cases h3 : Tasks.parse_deadline_step pd ps.deadline with
        | error e => exact Or.inr (by simp [Tasks.add_task, h1, h2, h3])
        | ok deadline =>
          exact Or.inl (by simp [Tasks.add_task, h1, h2, h3, Store.add_task])
  | svcCompleteTask now ident =>
    simp only [applyOp]
    cases h : Tasks.complete_resolution s ident with
    | error e => exact Or.inr (by simp [Tasks.complete_task, h])
    | ok task => exact Or.inr (by simp [Tasks.complete_task, h])
  | svcDeleteTask now ident =>
    simp only [applyOp]
    cases h : Tasks.delete_resolution s ident with
    | error e => exact Or.inr (by simp [Tasks.delete_task, h])
    | ok task =>
      by_cases hd : task.deleted_at.isSome <;>
        exact Or.inr (by simp [Tasks.delete_task, h, hd])
  | svcRestoreTask n =>
    simp only [applyOp]
    cases h : s.get_task_by_number n with
    | none => exact Or.inr (by simp [Tasks.restore_task, h])
    | some task =>
      by_cases hd : task.deleted_at.isNone <;>
        exact Or.inr (by simp [Tasks.restore_task, h, hd])
  | svcCreateArea slugify name => exact Or.inr rfl
  | svcDeleteArea now name =>
    simp only [applyOp]
    cases h : s.get_active_areas.filter (fun a => strContainsCI a.name name) with
    | nil => exact Or.inr (by simp [Areas.delete_area, h])
    | cons area rest =>
      cases rest with
      | cons b t => exact Or.inr (by simp [Areas.delete_area, h])
      | nil =>
        refine Or.inr ?_
        simp only [Areas.delete_area, h]
        rw [foldl_proj_const (fun st => st.next_task_number)
          (Areas.stampTask now) (stampTask_next now)]
        rw [foldl_proj_const (fun st => st.next_task_number)
          (Areas.stampProject now) (stampProject_next now)]
        exact foldl_proj_const
          (fun acc => acc.2.next_task_number)
          (Areas.cascadeStep now)
          (fun a b => foldl_proj_const (fun st => st.next_task_number)
            (Areas.stampTask now) (stampTask_next now) _ a.2)
          _ (0, s)
  | svcRestoreArea name =>
    simp only [applyOp]
    cases h : s.get_deleted_areas.filter (fun a => strContainsCI a.name name) with
    | nil => exact Or.inr (by simp [Areas.restore_area, h])
    | cons area rest =>
      cases rest with
      | nil => exact Or.inr (by simp [Areas.restore_area, h])
      | cons b t => exact Or.inr (by simp [Areas.restore_area, h])
  | svcCreateProject newId now slugify name => exact Or.inr rfl
  | svcDeleteProject now name =>
    simp only [applyOp]
    cases h : s.get_active_projects.filter (fun p => strContainsCI p.name name) with
    | nil => exact Or.inr (by simp [Projects.delete_project, h])
    | cons project rest =>
      cases rest with
      | cons b t => exact Or.inr (by simp [Projects.delete_project, h])
      | nil =>
        refine Or.inr ?_
        simp only [Projects.delete_project, h]
        exact foldl_proj_const (fun st => st.next_task_number)
          (Areas.stampTask now) (stampTask_next now) _ s
  | svcRestoreProject name =>
    simp only [applyOp]
    cases h : s.get_deleted_projects.filter (fun p => strContainsCI p.name name) with
    | nil => exact Or.inr (by simp [Projects.restore_project, h])
    | cons project rest =>
      cases rest with
      | nil => exact Or.inr (by simp [Projects.restore_project, h])
      | cons b t => exact Or.inr (by simp [Projects.restore_project, h])

/-- Helper: looking up a freshly replaced entry finds the new value. -/
theorem find_map_replace {α} (key : α → Uuid) (x : α) :
    ∀ l : List α, l.any (fun y => key y == key x) = true →
      (l.map (fun y => if key y = key x then x else y)).find?
        (fun y => key y == key x) = some x := by
  intro l
  induction l with
  | nil => intro h; simp at h
  | cons y t ih =>
    intro h
    by_cases hy : key y = key x
    · simp [List.find?, hy]
    · have ht : t.any (fun z => key z == key x) = true := by
        simp only [List.any_cons, Bool.or_eq_true, beq_iff_eq] at h
        rcases h with h | h
        · exact absurd h hy
        · simpa using h
      have hb : (key y == key x) = false := by simp [hy]
      simp only [List.map_cons, List.find?, hy, if_false, hb]
      exact ih ht

/-- Helper: looking up a freshly appended entry finds it. -/
theorem find_append_new {α} (key : α → Uuid) (x : α) :
    ∀ l : List α, l.any (fun y => key y == key x) = false →
      (l ++ [x]).find? (fun y => key y == key x) = some x := by
  intro l
  induction l with
  | nil => intro _; simp [List.find?]
  | cons y t ih =>
    intro h
    simp only [List.any_cons, Bool.or_eq_false_iff] at h
    simp only [List.cons_append, List.find?, h.1]
    exact ih h.2

/-- Helper: a `kinsert` is always found again under the inserted key. -/
theorem kfind_kinsert {α} (key : α → Uuid) (x : α) (l : List α) :
    kfind key (key x) (kinsert key x l) = some x := by
  unfold kinsert kfind
  by_cases h : l.any (fun y => key y == key x)
  · rw [if_pos h]; exact find_map_replace key x l h
  · rw [if_neg h]; exact find_append_new key x l (by simpa using h)

/-- Rust `Store::add_task` hands the pre-call counter value to the inserted
task: looking the task up by its id right after the call yields it with
`task_number = next_task_number` of the pre-state. -/
theorem add_task_assigns (s : Store) (t : Task) :
    (s.add_task t).get_task t.id =
      some { t with task_number := s.next_task_number } := by
  have := kfind_kinsert Task.id
    { t with task_number := s.next_task_number } s.tasks
  simpa [Store.add_task, Store.get_task] using this

/-- The counter never decreases across any single operation. -/
theorem applyOp_next_mono (s : Store) (op : Op) :
    s.next_task_number ≤ (applyOp s op).next_task_number := by
  rcases applyOp_next s op with h | h <;> omega

/-- The counter never decreases across a run. -/
theorem runOps_next_mono (ops : List Op) :
    ∀ s : Store, s.next_task_number ≤ (runOps s ops).next_task_number := by
  induction ops with
  | nil => intro s; exact Nat.le_refl _
  | cons op t ih =>
    intro s
    exact Nat.le_trans (applyOp_next_mono s op) (ih (applyOp s op))

/-- The numbers handed out along a run are exactly the consecutive block
from the starting counter up to the final counter. -/
theorem assignedNumbers_eq (ops : List Op) :
    ∀ s : Store, assignedNumbers s ops =
      List.range' s.next_task_number
        ((runOps s ops).next_task_number - s.next_task_number) := by
  induction ops with
  | nil => intro s; simp [assignedNumbers, runOps]
  | cons op t ih =>
    intro s
    have hmono := applyOp_next_mono s op
    have hmono2 := runOps_next_mono t (applyOp s op)
    have hrun : runOps s (op :: t) = runOps (applyOp s op) t := rfl
    set d := (applyOp s op).next_task_number - s.next_task_number with hd
    have hnext : (applyOp s op).next_task_number = s.next_task_number + d := by
      omega
    calc assignedNumbers s (op :: t)
        = List.range' s.next_task_number d ++ assignedNumbers (applyOp s op) t := by
          simp [assignedNumbers, hd]
      _ = List.range' s.next_task_number d ++
            List.range' (s.next_task_number + d)
              ((runOps (applyOp s op) t).next_task_number -
                (s.next_task_number + d)) := by
          rw [ih (applyOp s op), hnext]
      _ = List.range' s.next_task_number
            ((runOps s (op :: t)).next_task_number - s.next_task_number) := by
          rw [List.range'_append_1, hrun]
          congr 1
          omega

/-- C2: starting from `Store::default()` (counter 1), the task numbers
assigned across any sequence of operations form the consecutive block
`1, 2, …, k` (strictly increasing, starting at 1, never reused — the block
only ever grows, deletions included); `Store::add_task` hands the pre-call
counter to the inserted task and bumps the counter; and no operation ever
decreases `next_task_number`. -/
theorem c2_task_numbers_consecutive :
    (∀ ops : List Op,
      assignedNumbers Store.default ops =
        List.range' 1 ((runOps Store.default ops).next_task_number - 1)) ∧
    (∀ (s : Store) (t : Task),
      (s.add_task t).get_task t.id =
        some { t with task_number := s.next_task_number } ∧
      (s.add_task t).next_task_number = s.next_task_number + 1) ∧
    (∀ (s : Store) (op : Op),
      s.next_task_number ≤ (applyOp s op).next_task_number) :=
  ⟨fun ops => by simpa [Store.default] using assignedNumbers_eq ops Store.default,
   fun s t => ⟨add_task_assigns s t, rfl⟩,
   applyOp_next_mono⟩

/-- Sample area for concrete witnesses. -/
def sArea : Area := { id := 10, name := "Work", slug := "work", deleted_at := none }

/-- Sample project 1 (in `sArea`). -/
def sProject1 : Project :=
  { Project.default with id := 20, name := "Launch", area_id := some 10 }

/-- Sample project 2 (in `sArea`). -/
def sProject2 : Project :=
  { Project.default with id := 21, name := "Lift", area_id := some 10 }

/-- Sample active task. -/
def sTask1 : Task := { Task.default with id := 1, task_number := 1, title := "alpha" }

/-- Sample deleted task. -/
def sTask2 : Task :=
  { Task.default with id := 2, task_number := 2, title := "beta", deleted_at := some 5 }

/-- Sample completed (but active) task with number 42. -/
def sTask3 : Task :=
  { Task.default with
    id := 3, task_number := 42, title := "see 42 here", completed_at := some 7 }

/-- Sample active task under project 1. -/
def sTaskP1 : Task :=
  { Task.default with id := 4, task_number := 3, title := "in p1", project_id := some 20 }

/-- Sample active task under project 2. -/
def sTaskP2 : Task :=
  { Task.default with id := 5, task_number := 4, title := "in p2", project_id := some 21 }

/-- Sample active, incomplete task whose title contains "42". -/
def sTask6 : Task :=
  { Task.default with id := 6, task_number := 5, title := "route 42 planning" }

/-- Sample store for concrete witnesses. -/
def sStore : Store :=
  { version := 3
    next_task_number := 43
    tasks := [sTask1, sTask2, sTask3, sTaskP1, sTaskP2, sTask6]
    projects := [sProject1, sProject2]
    areas := [sArea] }

/-- C3: whenever a lifecycle operation returns an error (in this model all
returnable errors are resolution/validation errors — storage persistence
is infallible here), the store is returned exactly as it was and
`storage.save` was never invoked. One conjunct per operation. -/
theorem c3_errors_leave_store_untouched :
    (∀ (store : Store) (newId : Uuid) (now : Timestamp)
        (pd : String → Option Date) (ps : Tasks.AddTaskParameters)
        (e : Tasks.AddTaskError),
      (Tasks.add_task store newId now pd ps).result = .error e →
      (Tasks.add_task store newId now pd ps).store = store ∧
      (Tasks.add_task store newId now pd ps).saves = []) ∧
    (∀ (store : Store) (now : Timestamp) (ident : String)
        (e : Tasks.CompleteTaskError),
      (Tasks.complete_task store now ident).result = .error e →
      (Tasks.complete_task store now ident).store = store ∧
      (Tasks.complete_task store now ident).saves = []) ∧
    (∀ (store : Store) (now : Timestamp) (ident : String)
        (e : Tasks.DeleteTaskError),
      (Tasks.delete_task store now ident).result = .error e →
      (Tasks.delete_task store now ident).store = store ∧
      (Tasks.delete_task store now ident).saves = []) ∧
    (∀ (store : Store) (n : Nat) (e : Tasks.RestoreTaskError),
      (Tasks.restore_task store n).result = .error e →
      (Tasks.restore_task store n).store = store ∧
      (Tasks.restore_task store n).saves = []) ∧
    (∀ (store : Store) (slugify : String → String) (name : String)
        (e : Areas.CreateAreaError),
      (Areas.create_area store slugify name).result = .error e →
      (Areas.create_area store slugify name).store = store ∧
      (Areas.create_area store slugify name).saves = []) ∧
    (∀ (store : Store) (now : Timestamp) (name : String)
        (e : Areas.DeleteAreaError),
      (Areas.delete_area store now name).result = .error e →
      (Areas.delete_area store now name).store = store ∧
      (Areas.delete_area store now name).saves = []) ∧
    (∀ (store : Store) (name : String) (e : Areas.RestoreAreaError),
      (Areas.restore_area store name).result = .error e →
      (Areas.restore_area store name).store = store ∧
      (Areas.restore_area store name).saves = []) ∧
    (∀ (store : Store) (newId : Uuid) (now : Timestamp)
        (slugify : String → String) (name : String)
        (e : Projects.CreateProjectError),
      (Projects.create_project store newId now slugify name).result = .error e →
      (Projects.create_project store newId now slugify name).store = store ∧
      (Projects.create_project store newId now slugify name).saves = []) ∧
    (∀ (store : Store) (now : Timestamp) (name : String)
        (e : Projects.DeleteProjectError),
      (Projects.delete_project store now name).result = .error e →
      (Projects.delete_project store now name).store = store ∧
      (Projects.delete_project store now name).saves = []) ∧
    (∀ (store : Store) (name : String) (e : Projects.RestoreProjectError),
      (Projects.restore_project store name).result = .error e →
      (Projects.restore_project store name).store = store ∧
      (Projects.restore_project store name).saves = []) := by
  refine ⟨?_, ?_, ?_, ?_, ?_, ?_, ?_, ?_, ?_, ?_⟩
  · intro store newId now pd ps e h
    cases h1 : Tasks.resolve_project_step store ps.project with
    | error e2 => constructor <;> simp [Tasks.add_task, h1]
    | ok pid =>
      cases h2 : Tasks.resolve_area_step store ps.area with
      | error e2 => constructor <;> simp [Tasks.add_task, h1, h2]
      | ok aid =>
        cases h3 : Tasks.parse_deadline_step pd ps.deadline with
        | error e2 => constructor <;> simp [Tasks.add_task, h1, h2, h3]
        | ok dl => simp [Tasks.add_task, h1, h2, h3] at h
  · intro store now ident e h
    cases h1 : Tasks.complete_resolution store ident with
    | error e2 => constructor <;> simp [Tasks.complete_task, h1]
    | ok task => simp [Tasks.complete_task, h1] at h
  · intro store now ident e h
    cases h1 : Tasks.delete_resolution store ident with
    | error e2 => constructor <;> simp [Tasks.delete_task, h1]
    | ok task =>
      by_cases hd : task.deleted_at.isSome
      · constructor <;> simp [Tasks.delete_task, h1, hd]
      · simp [Tasks.delete_task, h1, hd] at h
  · intro store n e h
    cases h1 : store.get_task_by_number n with
    | none => constructor <;> simp [Tasks.restore_task, h1]
    | some task =>
      by_cases hd : task.deleted_at.isNone
      · constructor <;> simp [Tasks.restore_task, h1, hd]
      · simp [Tasks.restore_task, h1, hd] at h
  · intro store slugify name e h
    simp [Areas.create_area] at h
  · intro store now name e h
    cases h1 : store.get_active_areas.filter
        (fun a => strContainsCI a.name name) with
    | nil => constructor <;> simp [Areas.delete_area, h1]
    | cons a rest =>
      cases rest with
      | nil => simp [Areas.delete_area, h1] at h
      | cons b t => constructor <;> simp [Areas.delete_area, h1]
  · intro store name e h
    cases h1 : store.get_deleted_areas.filter
        (fun a => strContainsCI a.name name) with
    | nil => constructor <;> simp [Areas.restore_area, h1]
    | cons a rest =>
      cases rest with
      | nil => simp [Areas.restore_area, h1] at h
      | cons b t => constructor <;> simp [Areas.restore_area, h1]
  · intro store newId now slugify name e h
    simp [Projects.create_project] at h
  · intro store now name e h
    cases h1 : store.get_active_projects.filter
        (fun p => strContainsCI p.name name) with
    | nil => constructor <;> simp [Projects.delete_project, h1]
    | cons p rest =>
      cases rest with
      | nil => simp [Projects.delete_project, h1] at h
      | cons b t => constructor <;> simp [Projects.delete_project, h1]
  · intro store name e h
    cases h1 : store.get_deleted_projects.filter
        (fun p => strContainsCI p.name name) with
    | nil => constructor <;> simp [Projects.restore_project, h1]
    | cons p rest =>
      cases rest with
      | nil => simp [Projects.restore_project, h1] at h
      | cons b t => constructor <;> simp [Projects.restore_project, h1]

/-- C3 witness: deleting the already-deleted task number 2 of `sStore`
errors with `TaskAlreadyDeleted` and leaves the store untouched with no
save; completing the unknown fuzzy name "zzz" likewise. -/
theorem c3_errors_leave_store_untouched_witness :
    ((Tasks.delete_task sStore 99 "2").store = sStore ∧
     (Tasks.delete_task sStore 99 "2").saves = []) ∧
    ((Tasks.complete_task sStore 99 "zzz").store = sStore ∧
     (Tasks.complete_task sStore 99 "zzz").saves = []) :=
  ⟨c3_errors_leave_store_untouched.2.2.1 sStore 99 "2"
      (.taskAlreadyDeleted "beta") (by decide),
   c3_errors_leave_store_untouched.2.1 sStore 99 "zzz"
      (.taskNotFound "zzz") (by decide)⟩

/-- Helper: a fold of single-task stampings rewrites the task map to stamp
exactly the listed ids (stamping is idempotent, so no distinctness is
needed), leaving every other store field unchanged. -/
theorem stampTask_foldl (now : Timestamp) :
    ∀ (ids : List Uuid) (s : Store),
      ids.foldl (Areas.stampTask now) s =
        { s with tasks := s.tasks.map (fun t =>
            if ids.contains t.id then { t with deleted_at := some now } else t) } := by
  intro ids
  induction ids with
  | nil =>
    intro s
    cases s
    simp
  | cons i ids ih =>
    intro s
    rw [List.foldl_cons, ih]
    cases s with
    | mk v n ts ps as =>
      simp only [Areas.stampTask, kmodify, List.map_map, Store.mk.injEq,
        true_and, and_true]
      congr 1
      funext t
      by_cases h1 : t.id = i
      · by_cases h2 : ids.contains t.id <;>
          simp [Function.comp, h1, h2, List.contains_cons]
      · by_cases h2 : ids.contains t.id <;>
          simp [Function.comp, h1, h2, List.contains_cons]

/-- Helper: the project-stamping fold, analogous to `stampTask_foldl`. -/
theorem stampProject_foldl (now : Timestamp) :
    ∀ (ids : List Uuid) (s : Store),
      ids.foldl (Areas.stampProject now) s =
        { s with projects := s.projects.map (fun p =>
            if ids.contains p.id then { p with deleted_at := some now } else p) } := by
  intro ids
  induction ids with
  | nil =>
    intro s
    cases s
    simp
  | cons i ids ih =>
    intro s
    rw [List.foldl_cons, ih]
    cases s with
    | mk v n ts ps as =>
      simp only [Areas.stampProject, kmodify, List.map_map, Store.mk.injEq,
        true_and, and_true]
      congr 1
      funext p
      by_cases h1 : p.id = i
      · by_cases h2 : ids.contains p.id <;>
          simp [Function.comp, h1, h2, List.contains_cons]
      · by_cases h2 : ids.contains p.id <;>
          simp [Function.comp, h1, h2, List.contains_cons]

/-- Helper: with key-distinct entries, a key occurs among the keys of a
filtered sublist exactly when its own entry passes the filter. -/
theorem key_mem_filter_iff {α} (key : α → Uuid) (l : List α)
    (hn : (l.map key).Nodup) (p : α → Bool) (x : α) (hx : x ∈ l) :
    key x ∈ (l.filter p).map key ↔ p x = true := by
  constructor
  · intro h
    rcases List.mem_map.mp h with ⟨u, hu, hk⟩
    have humem : u ∈ l := List.mem_of_mem_filter hu
    have : u = x := List.inj_on_of_nodup_map hn humem hx hk
    subst this
    exact List.of_mem_filter hu
  · intro h
    exact List.mem_map.mpr ⟨x, List.mem_filter.mpr ⟨hx, h⟩, rfl⟩

/-- Helper: `kfind` commutes with a key-preserving map. -/
theorem kfind_map_keypres {α} (key : α → Uuid) (i : Uuid) (g : α → α)
    (hg : ∀ y, key (g y) = key y) :
    ∀ l : List α, kfind key i (l.map g) = (kfind key i l).map g := by
  intro l
  induction l with
  | nil => rfl
  | cons y t ih =>
    unfold kfind at *
    by_cases h : key y = i
    · simp [List.find?, hg, h]
    · have hb : (key (g y) == i) = false := by simp [hg, h]
      have hb2 : (key y == i) = false := by simp [h]
      simp only [List.map_cons, List.find?, hb, hb2]
      exact ih

/-- Helper: with key-distinct entries, `kfind` at a member's key returns
that member. -/
theorem kfind_of_mem_nodup {α} (key : α → Uuid) :
    ∀ (l : List α), (l.map key).Nodup → ∀ x ∈ l, kfind key (key x) l = some x := by
  intro l
  induction l with
  | nil => intro _ x hx; cases hx
  | cons y t ih =>
    intro hn x hx
    rw [List.map_cons, List.nodup_cons] at hn
    have hn2 : (t.map key).Nodup := hn.2
    have hy : key y ∉ t.map key := hn.1
    rcases List.mem_cons.mp hx with rfl | hxt
    · simp [kfind, List.find?]
    · by_cases h : key y = key x
      · exfalso
        exact hy (h ▸ List.mem_map.mpr ⟨x, hxt, rfl⟩)
      · have hb : (key y == key x) = false := by simp [h]
        simp only [kfind, List.find?, hb]
        exact ih hn2 x hxt

/-- Helper: filtering a disjunction of pointwise-disjoint predicates counts
each disjunct once. -/
theorem length_filter_or_disjoint {α} (p q : α → Bool) :
    ∀ l : List α, (∀ x ∈ l, ¬(p x = true ∧ q x = true)) →
      (l.filter (fun x => p x || q x)).length =
        (l.filter p).length + (l.filter q).length := by
  intro l
  induction l with
  | nil => intro _; rfl
  | cons y t ih =>
    intro h
    have ht := ih (fun x hx => h x (List.mem_cons_of_mem y hx))
    have hy := h y (List.mem_cons_self y t)
    by_cases hp : p y = true
    · have hq : q y = false := by
        cases hq : q y
        · rfl
        · exact absurd ⟨hp, hq⟩ hy
      simp [List.filter_cons, hp, hq, ht]
      omega
    · have hp2 : p y = false := by simpa using hp
      by_cases hq : q y = true
      · simp [List.filter_cons, hp2, hq, ht]
        omega
      · have hq2 : q y = false := by simpa using hq
        simp [List.filter_cons, hp2, hq2, ht]

/-- Specification-side predicate: the task is active and belongs to one of
the projects in `P`. -/
def projIn (P : List Uuid) (t : Task) : Bool :=
  t.deleted_at.isNone && t.project_id.any (fun pid => P.contains pid)

/-- Specification-side combinator: stamp the task iff it is an active task
of one of the projects in `P`. -/
def stampIf (now : Timestamp) (P : List Uuid) (t : Task) : Task :=
  if projIn P t then { t with deleted_at := some now } else t

/-- Helper: `projIn` unfolded to a proposition. -/
theorem projIn_true_iff (P : List Uuid) (t : Task) :
    projIn P t = true ↔
      t.deleted_at = none ∧ ∃ p2, t.project_id = some p2 ∧ p2 ∈ P := by
  rcases hpj : t.project_id with _ | p2 <;>
    rcases hdel : t.deleted_at with _ | d <;>
      simp [projIn, hpj, hdel, Option.any, Option.isNone, List.contains_iff_exists_mem_beq]

/-- Helper: the filter used inside the cascade loop is `projIn [pid]`. -/
theorem qpid_eq (pid : Uuid) (t : Task) :
    ((t.project_id == some pid) && t.deleted_at.isNone) = projIn [pid] t := by
  rcases hpj : t.project_id with _ | p2 <;>
    rcases hdel : t.deleted_at with _ | d <;>
      first
      | (by_cases h : p2 = pid <;>
          simp [projIn, hpj, hdel, Option.any, Option.isNone, h])
      | simp [projIn, hpj, hdel, Option.any, Option.isNone]

/-- Helper: `projIn` distributes over list append. -/
theorem projIn_append (P Q : List Uuid) (t : Task) :
    projIn (P ++ Q) t = (projIn P t || projIn Q t) := by
  rcases hpj : t.project_id with _ | p2 <;>
    rcases hdel : t.deleted_at with _ | d <;>
      simp [projIn, hpj, hdel, Option.any, Option.isNone, Bool.and_or_distrib_left]

/-- Helper: `projIn` on a cons splits as a disjunction. -/
theorem projIn_cons (pid : Uuid) (ps : List Uuid) (t : Task) :
    projIn (pid :: ps) t = (projIn [pid] t || projIn ps t) := by
  have : pid :: ps = [pid] ++ ps := rfl
  rw [this, projIn_append]

/-- Helper: disjoint project-id lists give disjoint `projIn` predicates. -/
theorem projIn_disjoint {P Q : List Uuid} (h : ∀ x ∈ P, x ∉ Q) (t : Task) :
    ¬(projIn P t = true ∧ projIn Q t = true) := by
  rintro ⟨h1, h2⟩
  rcases (projIn_true_iff P t).mp h1 with ⟨_, p2, hpj, hp2⟩
  rcases (projIn_true_iff Q t).mp h2 with ⟨_, p3, hpj2, hp3⟩
  rw [hpj] at hpj2
  cases hpj2
  exact h p2 hp2 hp3

/-- Helper: `stampIf` preserves the task id. -/
theorem stampIf_id (now : Timestamp) (P : List Uuid) (t : Task) :
    (stampIf now P t).id = t.id := by
  unfold stampIf
  by_cases h : projIn P t = true <;> simp [h]

/-- Helper: a stamped task never passes `projIn`, so a later filter over a
disjoint project block sees the original tasks. -/
theorem projIn_stampIf {P Q : List Uuid} (h : ∀ x ∈ P, x ∉ Q)
    (now : Timestamp) (t : Task) :
    projIn Q (stampIf now P t) = projIn Q t := by
  unfold stampIf
  by_cases hp : projIn P t = true
  · rw [if_pos hp]
    have h2 : projIn Q t = false := by
      cases hq : projIn Q t
      · rfl
      · exact absurd ⟨hp, hq⟩ (projIn_disjoint h t)
    rw [h2]
    simp [projIn, Option.isNone]
  · rw [if_neg hp]

/-- Helper: the body of one cascade step, in closed form: it counts and
stamps exactly the original active tasks of project `pid`, provided the
already-stamped block `P0` does not contain `pid`. -/
theorem cascadeStep_closed (now : Timestamp) (store : Store)
    (hnT : (store.tasks.map Task.id).Nodup)
    (P0 : List Uuid) (pid : Uuid) (hpid : pid ∉ P0) (n0 : Nat) :
    Areas.cascadeStep now
        (n0, { store with tasks := store.tasks.map (stampIf now P0) }) pid =
      (n0 + (store.tasks.filter (projIn [pid])).length,
       { store with tasks := store.tasks.map (stampIf now (P0 ++ [pid])) }) := by
  have hdisj : ∀ x ∈ P0, x ∉ ([pid] : List Uuid) := by
    intro x hx
    simp only [List.mem_singleton]
    rintro rfl
    exact hpid hx
  have hids :
      ((({ store with tasks := store.tasks.map (stampIf now P0) }
          : Store).get_tasks_for_project pid).filter
        (fun t => t.deleted_at.isNone)).map Task.id =
      (store.tasks.filter (projIn [pid])).map Task.id := by
    show ((((store.tasks.map (stampIf now P0)).filter
        (fun t => t.project_id == some pid)).filter
          (fun t => t.deleted_at.isNone)).map Task.id) = _
    rw [List.filter_filter]
    have h1 : (store.tasks.map (stampIf now P0)).filter
        (fun t => t.deleted_at.isNone && (t.project_id == some pid)) =
        (store.tasks.map (stampIf now P0)).filter (projIn [pid]) := by
      apply List.filter_congr
      intro t _
      rw [Bool.and_comm]
      exact qpid_eq pid t
    rw [h1, List.filter_map]
    have h2 : store.tasks.filter (projIn [pid] ∘ stampIf now P0) =
        store.tasks.filter (projIn [pid]) := by
      apply List.filter_congr
      intro t _
      exact projIn_stampIf hdisj now t
    rw [h2, List.map_map]
    apply List.map_congr_left
    intro t _
    exact stampIf_id now P0 t
  show (n0 + _, _) = _
  rw [hids]
  refine Prod.ext (by simp) ?_
  show ((store.tasks.filter (projIn [pid])).map Task.id).foldl
      (Areas.stampTask now) _ = _
  rw [stampTask_foldl]
  have h3 : (store.tasks.map (stampIf now P0)).map
      (fun t => if ((store.tasks.filter (projIn [pid])).map Task.id).contains t.id
        then { t with deleted_at := some now } else t) =
      store.tasks.map (stampIf now (P0 ++ [pid])) := by
    rw [List.map_map]
    apply List.map_congr_left
    intro t ht
    have hmem := key_mem_filter_iff Task.id store.tasks hnT (projIn [pid]) t ht
    have hcontains :
        ((store.tasks.filter (projIn [pid])).map Task.id).contains t.id =
          projIn [pid] t := by
      rcases hq : projIn [pid] t with _ | _
      · apply Bool.eq_false_iff.mpr
        intro hc
        have : t.id ∈ (store.tasks.filter (projIn [pid])).map Task.id := by
          simpa using hc
        rw [hmem] at this
        simp [this] at hq
      · have : t.id ∈ (store.tasks.filter (projIn [pid])).map Task.id :=
          hmem.mpr hq
        simpa using this
    show (if ((store.tasks.filter (projIn [pid])).map Task.id).contains
          ((stampIf now P0 t).id) = true
        then { (stampIf now P0 t) with deleted_at := some now }
        else stampIf now P0 t) = stampIf now (P0 ++ [pid]) t
    rw [stampIf_id now P0 t, hcontains]
    cases hq : projIn [pid] t
    · simp [stampIf, projIn_append, hq]
    · have hp0f : projIn P0 t = false := by
        cases hp : projIn P0 t
        · rfl
        · exact absurd ⟨hp, hq⟩ (projIn_disjoint hdisj t)
      simp [stampIf, projIn_append, hq, hp0f]
  rw [h3]

/-- Helper: the per-project cascade fold of `delete_area`, run over a block
of distinct project ids disjoint from the already-stamped block, stamps
exactly the active tasks of those projects and counts them. -/
theorem cascade_fold (now : Timestamp) (store : Store)
    (hnT : (store.tasks.map Task.id).Nodup) :
    ∀ (ps P0 : List Uuid) (n0 : Nat), ps.Nodup → (∀ x ∈ ps, x ∉ P0) →
      ps.foldl (Areas.cascadeStep now)
        (n0, { store with tasks := store.tasks.map (stampIf now P0) }) =
        (n0 + (store.tasks.filter (projIn ps)).length,
         { store with tasks := store.tasks.map (stampIf now (P0 ++ ps)) }) := by
  intro ps
  induction ps with
  | nil =>
    intro P0 n0 _ _
    have hfil : store.tasks.filter (projIn []) = [] := by
      apply List.filter_eq_nil_iff.mpr
      intro t ht
      cases hp : t.project_id <;> simp [projIn, hp, Option.any]
    simp [hfil]
  | cons pid ps ih =>
    intro P0 n0 hnd hdisj
    have hpid_not_ps : pid ∉ ps := (List.nodup_cons.mp hnd).1
    have hps_nodup : ps.Nodup := (List.nodup_cons.mp hnd).2
    have hpidP0 : pid ∉ P0 := hdisj pid (List.mem_cons_self _ _)
    rw [List.foldl_cons,
      cascadeStep_closed now store hnT P0 pid hpidP0 n0,
      ih (P0 ++ [pid]) _ hps_nodup (by
        intro x hx
        simp only [List.mem_append, List.mem_singleton]
        rintro (hxP0 | rfl)
        · exact hdisj x (List.mem_cons_of_mem _ hx) hxP0
        · exact hpid_not_ps hx)]
    have hcount : (store.tasks.filter (projIn (pid :: ps))).length =
        (store.tasks.filter (projIn [pid])).length +
          (store.tasks.filter (projIn ps)).length := by
      have hc : store.tasks.filter (projIn (pid :: ps)) =
          store.tasks.filter (fun t => projIn [pid] t || projIn ps t) := by
        apply List.filter_congr
        intro t _
        exact projIn_cons pid ps t
      rw [hc]
      apply length_filter_or_disjoint
      intro t _
      apply projIn_disjoint
      intro x hx
      simp only [List.mem_singleton] at hx
      subst hx
      exact hpid_not_ps
    refine Prod.ext ?_ ?_
    · show n0 + _ + _ = n0 + _
      rw [hcount]
      omega
    · show ({ store with tasks := store.tasks.map (stampIf now ((P0 ++ [pid]) ++ ps)) } : Store) = _
      rw [List.append_assoc]
      rfl

/-- Helper: stamping over the empty project block is the identity. -/
theorem stampIf_nil (now : Timestamp) (t : Task) : stampIf now [] t = t := by
  unfold stampIf
  rcases hpj : t.project_id with _ | p2 <;>
    simp [projIn, hpj, Option.any]

/-- Specification-side predicate: the task is active, directly under area
`aid` (no project). -/
def dirPred (aid : Uuid) (t : Task) : Bool :=
  t.deleted_at.isNone && (t.area_id == some aid && t.project_id.isNone)

/-- Helper: a task directly under an area has no project, so it never
passes `projIn`. -/
theorem projIn_dirPred_disjoint (P : List Uuid) (aid : Uuid) (t : Task) :
    ¬(projIn P t = true ∧ dirPred aid t = true) := by
  rintro ⟨h1, h2⟩
  rcases (projIn_true_iff P t).mp h1 with ⟨_, p2, hpj, _⟩
  simp [dirPred, hpj, Option.isNone] at h2

/-- Specification-side predicate: the tasks cascaded by `delete_area` on
area `aid` — active tasks of the area's active projects, plus active tasks
directly under the area. -/
def areaCascTaskPred (store : Store) (aid : Uuid) (t : Task) : Bool :=
  projIn (((store.get_projects_for_area aid).filter
      (fun p => p.deleted_at.isNone)).map Project.id) t || dirPred aid t

/-- Specification-side closed form of the store after `delete_area` on
area `aid` succeeds at instant `now`. -/
def areaCascPostStore (store : Store) (now : Timestamp) (aid : Uuid) : Store :=
  { store with
    tasks := store.tasks.map (fun t =>
      if areaCascTaskPred store aid t then { t with deleted_at := some now } else t)
    projects := store.projects.map (fun p =>
      if (p.area_id == some aid) && p.deleted_at.isNone
      then { p with deleted_at := some now } else p)
    areas := store.areas.map (fun a =>
      if a.id = aid then { a with deleted_at := some now } else a) }

/-- Helper: closed form of a successful `delete_area`: the result carries
the stamped area and the counts of active cascaded projects and tasks, the
post store stamps exactly those entities, and exactly one save happens. -/
theorem delete_area_closed (store : Store) (now : Timestamp) (name : String)
    (area : Area)
    (hres : store.get_active_areas.filter
      (fun a => strContainsCI a.name name) = [area])
    (hnT : (store.tasks.map Task.id).Nodup)
    (hnP : (store.projects.map Project.id).Nodup)
    (hnA : (store.areas.map Area.id).Nodup) :
    Areas.delete_area store now name =
      ⟨.ok { area := { area with deleted_at := some now }
             cascaded_projects_count :=
               ((store.get_projects_for_area area.id).filter
                 (fun p => p.deleted_at.isNone)).length
             cascaded_tasks_count :=
               (store.tasks.filter (areaCascTaskPred store area.id)).length },
        areaCascPostStore store now area.id,
        [areaCascPostStore store now area.id]⟩ := by
  have harea : area ∈ store.areas := by
    have h1 : area ∈ store.get_active_areas.filter
        (fun a => strContainsCI a.name name) := by
      rw [hres]; exact List.mem_singleton.mpr rfl
    exact List.mem_of_mem_filter (List.mem_of_mem_filter h1)
  have hpids_nodup : (((store.get_projects_for_area area.id).filter
      (fun p => p.deleted_at.isNone)).map Project.id).Nodup := by
    apply List.Nodup.sublist _ hnP
    exact List.Sublist.map Project.id
      ((List.filter_sublist _).trans (List.filter_sublist _))
  have hinit : store = { store with tasks := store.tasks.map (stampIf now []) } := by
    have : store.tasks.map (stampIf now []) = store.tasks := by
      have h := List.map_congr_left (fun t (_ : t ∈ store.tasks) => stampIf_nil now t)
      rw [h]
      simp
    cases store
    simp_all
  have hfold : (((store.get_projects_for_area area.id).filter
      (fun p => p.deleted_at.isNone)).map Project.id).foldl (Areas.cascadeStep now) (0, store) =
      ((store.tasks.filter (projIn (((store.get_projects_for_area area.id).filter
      (fun p => p.deleted_at.isNone)).map Project.id))).length,
       { store with tasks := store.tasks.map (stampIf now (((store.get_projects_for_area area.id).filter
      (fun p => p.deleted_at.isNone)).map Project.id)) }) := by
    have h0 : ((0 : Nat), store) =
        ((0 : Nat), { store with tasks := store.tasks.map (stampIf now []) }) :=
      congrArg (Prod.mk 0) hinit
    rw [h0, cascade_fold now store hnT (((store.get_projects_for_area area.id).filter
      (fun p => p.deleted_at.isNone)).map Project.id) [] 0 hpids_nodup
      (by intro x _ hx; cases hx)]
    simp
  have hproj : (((store.get_projects_for_area area.id).filter
      (fun p => p.deleted_at.isNone)).map Project.id).foldl (Areas.stampProject now)
      ({ store with tasks := store.tasks.map (stampIf now (((store.get_projects_for_area area.id).filter
      (fun p => p.deleted_at.isNone)).map Project.id)) }) =
      { store with
        tasks := store.tasks.map (stampIf now (((store.get_projects_for_area area.id).filter
      (fun p => p.deleted_at.isNone)).map Project.id))
        projects := store.projects.map (fun p =>
          if (p.area_id == some area.id) && p.deleted_at.isNone
          then { p with deleted_at := some now } else p) } := by
    rw [stampProject_foldl]
    have hmapP : store.projects.map (fun p =>
        if (((store.get_projects_for_area area.id).filter
      (fun p => p.deleted_at.isNone)).map Project.id).contains p.id then { p with deleted_at := some now } else p) =
        store.projects.map (fun p =>
          if (p.area_id == some area.id) && p.deleted_at.isNone
          then { p with deleted_at := some now } else p) := by
      apply List.map_congr_left
      intro p hp
      have hpids2 : (((store.get_projects_for_area area.id).filter
      (fun p => p.deleted_at.isNone)).map Project.id) = (store.projects.filter (fun p =>
          (p.area_id == some area.id) && p.deleted_at.isNone)).map Project.id := by
        show ((store.projects.filter _).filter _).map Project.id = _
        rw [List.filter_filter]
        apply congrArg
        apply List.filter_congr
        intro q _
        rw [Bool.and_comm]
      have hmem := key_mem_filter_iff Project.id store.projects hnP
        (fun p => (p.area_id == some area.id) && p.deleted_at.isNone) p hp
      have hpc : (((store.get_projects_for_area area.id).filter
      (fun p => p.deleted_at.isNone)).map Project.id).contains p.id =
          ((p.area_id == some area.id) && p.deleted_at.isNone) := by
        rw [hpids2]
        rcases hq : ((p.area_id == some area.id) && p.deleted_at.isNone) with _ | _
        · apply Bool.eq_false_iff.mpr
          intro hcont
          have hm : p.id ∈ (store.projects.filter (fun p =>
              (p.area_id == some area.id) && p.deleted_at.isNone)).map Project.id := by
            simpa using hcont
          rw [hmem] at hm
          simp [hm] at hq
        · have hm : p.id ∈ (store.projects.filter (fun p =>
              (p.area_id == some area.id) && p.deleted_at.isNone)).map Project.id :=
            hmem.mpr hq
          simpa using hm
      rw [hpc]
    rw [hmapP]
  have hdir : ((({ store with
        tasks := store.tasks.map (stampIf now (((store.get_projects_for_area area.id).filter
      (fun p => p.deleted_at.isNone)).map Project.id))
        projects := store.projects.map (fun p =>
          if (p.area_id == some area.id) && p.deleted_at.isNone
          then { p with deleted_at := some now } else p) } : Store).get_tasks_for_area area.id).filter
        (fun t => t.deleted_at.isNone)).map Task.id =
      (store.tasks.filter (dirPred area.id)).map Task.id := by
    show (((store.tasks.map (stampIf now (((store.get_projects_for_area area.id).filter
      (fun p => p.deleted_at.isNone)).map Project.id))).filter _).filter _).map Task.id = _
    rw [List.filter_filter]
    show ((store.tasks.map (stampIf now (((store.get_projects_for_area area.id).filter
      (fun p => p.deleted_at.isNone)).map Project.id))).filter
      (dirPred area.id)).map Task.id = _
    rw [List.filter_map]
    have h2 : store.tasks.filter (dirPred area.id ∘ stampIf now (((store.get_projects_for_area area.id).filter
      (fun p => p.deleted_at.isNone)).map Project.id)) =
        store.tasks.filter (dirPred area.id) := by
      apply List.filter_congr
      intro t _
      show dirPred area.id (stampIf now (((store.get_projects_for_area area.id).filter
      (fun p => p.deleted_at.isNone)).map Project.id) t) = dirPred area.id t
      unfold stampIf
      by_cases hp : projIn (((store.get_projects_for_area area.id).filter
      (fun p => p.deleted_at.isNone)).map Project.id) t = true
      · rw [if_pos hp]
        have hd : dirPred area.id t = false := by
          cases hd2 : dirPred area.id t
          · rfl
          · exact absurd ⟨hp, hd2⟩ (projIn_dirPred_disjoint _ _ _)
        rw [hd]
        simp [dirPred, Option.isNone]
      · rw [if_neg hp]
    rw [h2, List.map_map]
    apply List.map_congr_left
    intro t _
    exact stampIf_id now (((store.get_projects_for_area area.id).filter
      (fun p => p.deleted_at.isNone)).map Project.id) t
  have hstamp3 : ((store.tasks.filter (dirPred area.id)).map Task.id).foldl
      (Areas.stampTask now) ({ store with
        tasks := store.tasks.map (stampIf now (((store.get_projects_for_area area.id).filter
      (fun p => p.deleted_at.isNone)).map Project.id))
        projects := store.projects.map (fun p =>
          if (p.area_id == some area.id) && p.deleted_at.isNone
          then { p with deleted_at := some now } else p) }) =
      { store with
        tasks := store.tasks.map (fun t =>
          if areaCascTaskPred store area.id t
          then { t with deleted_at := some now } else t)
        projects := store.projects.map (fun p =>
          if (p.area_id == some area.id) && p.deleted_at.isNone
          then { p with deleted_at := some now } else p) } := by
    rw [stampTask_foldl]
    have h3 : (store.tasks.map (stampIf now (((store.get_projects_for_area area.id).filter
      (fun p => p.deleted_at.isNone)).map Project.id))).map
        (fun t => if ((store.tasks.filter (dirPred area.id)).map Task.id).contains t.id
          then { t with deleted_at := some now } else t) =
        store.tasks.map (fun t =>
          if areaCascTaskPred store area.id t
          then { t with deleted_at := some now } else t) := by
      rw [List.map_map]
      apply List.map_congr_left
      intro t ht
      have hmem := key_mem_filter_iff Task.id store.tasks hnT (dirPred area.id) t ht
      have hcont : ((store.tasks.filter (dirPred area.id)).map Task.id).contains
          t.id = dirPred area.id t := by
        rcases hq : dirPred area.id t with _ | _
        · apply Bool.eq_false_iff.mpr
          intro hcont
          have hm : t.id ∈ (store.tasks.filter (dirPred area.id)).map Task.id := by
            simpa using hcont
          rw [hmem] at hm
          simp [hm] at hq
        · have hm : t.id ∈ (store.tasks.filter (dirPred area.id)).map Task.id :=
            hmem.mpr hq
          simpa using hm
      show (if ((store.tasks.filter (dirPred area.id)).map Task.id).contains
            ((stampIf now (((store.get_projects_for_area area.id).filter
      (fun p => p.deleted_at.isNone)).map Project.id) t).id) = true
          then { (stampIf now (((store.get_projects_for_area area.id).filter
      (fun p => p.deleted_at.isNone)).map Project.id) t) with deleted_at := some now }
          else stampIf now (((store.get_projects_for_area area.id).filter
      (fun p => p.deleted_at.isNone)).map Project.id) t) =
        if areaCascTaskPred store area.id t
        then { t with deleted_at := some now } else t
      rw [stampIf_id now (((store.get_projects_for_area area.id).filter
      (fun p => p.deleted_at.isNone)).map Project.id) t, hcont]
      unfold areaCascTaskPred
      cases hq : dirPred area.id t
      · rw [if_neg (by simp), Bool.or_false]
        rfl
      · rw [if_pos rfl]
        have hp : projIn (((store.get_projects_for_area area.id).filter
      (fun p => p.deleted_at.isNone)).map Project.id) t = false := by
          cases hp2 : projIn (((store.get_projects_for_area area.id).filter
      (fun p => p.deleted_at.isNone)).map Project.id) t
          · rfl
          · exact absurd ⟨hp2, hq⟩ (projIn_dirPred_disjoint _ _ _)
        rw [hp, Bool.false_or, if_pos rfl]
        unfold stampIf
        rw [hp]
        simp
    rw [h3]
  have hgetA : kfind Area.id area.id (store.areas.map (fun a =>
      if a.id = area.id then { a with deleted_at := some now } else a)) =
      some { area with deleted_at := some now } := by
    rw [kfind_map_keypres Area.id area.id _
      (fun a => by by_cases h : a.id = area.id <;> simp [h])]
    rw [kfind_of_mem_nodup Area.id store.areas hnA area harea]
    simp
  have hcnt : (store.tasks.filter (areaCascTaskPred store area.id)).length =
      (store.tasks.filter (projIn (((store.get_projects_for_area area.id).filter
      (fun p => p.deleted_at.isNone)).map Project.id))).length +
        (store.tasks.filter (dirPred area.id)).length := by
    have h1 : store.tasks.filter (areaCascTaskPred store area.id) =
        store.tasks.filter (fun t => projIn (((store.get_projects_for_area area.id).filter
      (fun p => p.deleted_at.isNone)).map Project.id) t || dirPred area.id t) := rfl
    rw [h1]
    exact length_filter_or_disjoint _ _ _
      (fun t _ => projIn_dirPred_disjoint (((store.get_projects_for_area area.id).filter
      (fun p => p.deleted_at.isNone)).map Project.id) area.id t)
  simp only [Areas.delete_area, hres]
  rw [hfold]
  dsimp only
  rw [hproj, hdir, hstamp3]
  simp only [SvcOut.mk.injEq]
  refine ⟨?_, ?_, ?_⟩
  · simp only [Except.ok.injEq, Areas.DeleteAreaResult.mk.injEq]
    refine ⟨?_, ?_, ?_⟩
    · show ((areaCascPostStore store now area.id).get_area area.id).getD
        Area.default = _
      show (kfind Area.id area.id (store.areas.map (fun a =>
        if a.id = area.id then { a with deleted_at := some now } else a))).getD
          Area.default = _
      rw [hgetA]
      rfl
    · simp
    · rw [hcnt]
      simp
  · rfl
  · rfl

/-- Helper: closed form of a successful `restore_area`: only the area's own
`deleted_at` is cleared; tasks and projects are untouched. -/
theorem restore_area_closed (store : Store) (name : String) (area : Area)
    (hres : store.get_deleted_areas.filter
      (fun a => strContainsCI a.name name) = [area])
    (hnA : (store.areas.map Area.id).Nodup) :
    Areas.restore_area store name =
      ⟨.ok { area with deleted_at := none },
       { store with areas := store.areas.map (fun a =>
          if a.id = area.id then { a with deleted_at := none } else a) },
       [{ store with areas := store.areas.map (fun a =>
          if a.id = area.id then { a with deleted_at := none } else a) }]⟩ := by
  have harea : area ∈ store.areas := by
    have h1 : area ∈ store.get_deleted_areas.filter
        (fun a => strContainsCI a.name name) := by
      rw [hres]; exact List.mem_singleton.mpr rfl
    exact List.mem_of_mem_filter (List.mem_of_mem_filter h1)
  have hget : kfind Area.id area.id (store.areas.map (fun a =>
      if a.id = area.id then { a with deleted_at := none } else a)) =
      some { area with deleted_at := none } := by
    rw [kfind_map_keypres Area.id area.id _
      (fun a => by by_cases h : a.id = area.id <;> simp [h])]
    rw [kfind_of_mem_nodup Area.id store.areas hnA area harea]
    simp
  simp only [Areas.restore_area, hres]
  simp only [SvcOut.mk.injEq]
  refine ⟨?_, rfl, rfl⟩
  show Except.ok ((kfind Area.id area.id (kmodify Area.id area.id
    (fun a => { a with deleted_at := none }) store.areas)).getD Area.default) = _
  show Except.ok ((kfind Area.id area.id (store.areas.map (fun a =>
    if a.id = area.id then { a with deleted_at := none } else a))).getD
      Area.default) = _
  rw [hget]
  rfl

/-- Helper: closed form of a successful `delete_project`: the result
carries the stamped project and the count of its active tasks; the post
store stamps exactly the project's active tasks and the project itself. -/
theorem delete_project_closed (store : Store) (now : Timestamp) (name : String)
    (project : Project)
    (hres : store.get_active_projects.filter
      (fun p => strContainsCI p.name name) = [project])
    (hnT : (store.tasks.map Task.id).Nodup)
    (hnP : (store.projects.map Project.id).Nodup) :
    Projects.delete_project store now name =
      ⟨.ok { project := { project with deleted_at := some now }
             cascaded_tasks_count :=
               (store.tasks.filter (projIn [project.id])).length },
        { store with
          tasks := store.tasks.map (stampIf now [project.id])
          projects := store.projects.map (fun p =>
            if p.id = project.id then { p with deleted_at := some now } else p) },
        [{ store with
          tasks := store.tasks.map (stampIf now [project.id])
          projects := store.projects.map (fun p =>
            if p.id = project.id then { p with deleted_at := some now } else p) }]⟩ := by
  have hproj : project ∈ store.projects := by
    have h1 : project ∈ store.get_active_projects.filter
        (fun p => strContainsCI p.name name) := by
      rw [hres]; exact List.mem_singleton.mpr rfl
    exact List.mem_of_mem_filter (List.mem_of_mem_filter h1)
  have hids : ((store.get_tasks_for_project project.id).filter
      (fun t => t.deleted_at.isNone)).map Task.id =
      (store.tasks.filter (projIn [project.id])).map Task.id := by
    show ((store.tasks.filter _).filter _).map Task.id = _
    rw [List.filter_filter]
    apply congrArg
    apply List.filter_congr
    intro t _
    rw [Bool.and_comm]
    exact qpid_eq project.id t
  have hstamp : ((store.tasks.filter (projIn [project.id])).map Task.id).foldl
      (Areas.stampTask now) store =
      { store with tasks := store.tasks.map (stampIf now [project.id]) } := by
    rw [stampTask_foldl]
    have h3 : store.tasks.map (fun t =>
        if ((store.tasks.filter (projIn [project.id])).map Task.id).contains t.id
        then { t with deleted_at := some now } else t) =
        store.tasks.map (stampIf now [project.id]) := by
      apply List.map_congr_left
      intro t ht
      have hmem := key_mem_filter_iff Task.id store.tasks hnT
        (projIn [project.id]) t ht
      have hcont : ((store.tasks.filter (projIn [project.id])).map
          Task.id).contains t.id = projIn [project.id] t := by
        rcases hq : projIn [project.id] t with _ | _
        · apply Bool.eq_false_iff.mpr
          intro hcont
          have hm : t.id ∈ (store.tasks.filter (projIn [project.id])).map
              Task.id := by simpa using hcont
          rw [hmem] at hm
          simp [hm] at hq
        · have hm : t.id ∈ (store.tasks.filter (projIn [project.id])).map
              Task.id := hmem.mpr hq
          simpa using hm
      show (if ((store.tasks.filter (projIn [project.id])).map Task.id).contains
          t.id = true then { t with deleted_at := some now } else t) =
        stampIf now [project.id] t
      rw [hcont]
      rfl
    rw [h3]
  have hget : kfind Project.id project.id (store.projects.map (fun p =>
      if p.id = project.id then { p with deleted_at := some now } else p)) =
      some { project with deleted_at := some now } := by
    rw [kfind_map_keypres Project.id project.id _
      (fun p => by by_cases h : p.id = project.id <;> simp [h])]
    rw [kfind_of_mem_nodup Project.id store.projects hnP project hproj]
    simp
  simp only [Projects.delete_project, hres]
  rw [hids, hstamp]
  simp only [SvcOut.mk.injEq]
  refine ⟨?_, rfl, rfl⟩
  simp only [Except.ok.injEq, Projects.DeleteProjectResult.mk.injEq]
  constructor
  · show ((kfind Project.id project.id (kmodify Project.id project.id
      (fun p => { p with deleted_at := some now })
        store.projects)).getD Project.default) = _
    show ((kfind Project.id project.id (store.projects.map (fun p =>
      if p.id = project.id then { p with deleted_at := some now } else p))).getD
        Project.default) = _
    rw [hget]
    rfl
  · simp

/-- Helper: a list containing two distinct elements has length at least 2. -/
theorem two_le_length_of_mem_ne {α} {a b : α} :
    ∀ {l : List α}, a ∈ l → b ∈ l → a ≠ b → 2 ≤ l.length := by
  intro l
  induction l with
  | nil => intro ha; cases ha
  | cons c t ih =>
    intro ha hb hne
    rcases List.mem_cons.mp ha with rfl | hat
    · rcases List.mem_cons.mp hb with rfl | hbt
      · exact absurd rfl hne
      · have := List.length_pos_of_mem hbt
        simp only [List.length_cons]
        omega
    · have := List.length_pos_of_mem hat
      simp only [List.length_cons]
      omega

/-- C7: ambiguity handling differs between the two cascade deletes: with
two or more active fuzzy matches, `delete_area` folds the ambiguity into
`AreaNotFound`, while `delete_project` surfaces a distinct
`AmbiguousProjectName` carrying the matching names; in both cases the
store is untouched and nothing is saved. -/
theorem c7_ambiguity_asymmetry :
    (∀ (store : Store) (now : Timestamp) (q : String) (a1 a2 : Area),
      a1 ∈ store.areas → a2 ∈ store.areas → a1 ≠ a2 →
      a1.deleted_at = none → a2.deleted_at = none →
      strContainsCI a1.name q = true → strContainsCI a2.name q = true →
      (Areas.delete_area store now q).result = .error (.areaNotFound q) ∧
      (Areas.delete_area store now q).store = store ∧
      (Areas.delete_area store now q).saves = []) ∧
    (∀ (store : Store) (now : Timestamp) (q : String) (p1 p2 : Project),
      p1 ∈ store.projects → p2 ∈ store.projects → p1 ≠ p2 →
      p1.deleted_at = none → p2.deleted_at = none →
      strContainsCI p1.name q = true → strContainsCI p2.name q = true →
      (Projects.delete_project store now q).result =
        .error (.ambiguousProjectName
          ((store.get_active_projects.filter
            (fun p => strContainsCI p.name q)).map Project.name)) ∧
      (Projects.delete_project store now q).store = store ∧
      (Projects.delete_project store now q).saves = []) := by
  constructor
  · intro store now q a1 a2 h1 h2 hne hd1 hd2 hc1 hc2
    have hm1 : a1 ∈ store.get_active_areas.filter
        (fun a => strContainsCI a.name q) :=
      List.mem_filter.mpr
        ⟨List.mem_filter.mpr ⟨h1, by simp [hd1]⟩, hc1⟩
    have hm2 : a2 ∈ store.get_active_areas.filter
        (fun a => strContainsCI a.name q) :=
      List.mem_filter.mpr
        ⟨List.mem_filter.mpr ⟨h2, by simp [hd2]⟩, hc2⟩
    have hlen := two_le_length_of_mem_ne hm1 hm2 hne
    rcases hLs : store.get_active_areas.filter
        (fun a => strContainsCI a.name q) with _ | ⟨x, _ | ⟨y, rest⟩⟩
    · rw [hLs] at hlen; simp at hlen
    · rw [hLs] at hlen; simp at hlen
    · refine ⟨?_, ?_, ?_⟩ <;> simp [Areas.delete_area, hLs]
  · intro store now q p1 p2 h1 h2 hne hd1 hd2 hc1 hc2
    have hm1 : p1 ∈ store.get_active_projects.filter
        (fun p => strContainsCI p.name q) :=
      List.mem_filter.mpr
        ⟨List.mem_filter.mpr ⟨h1, by simp [hd1]⟩, hc1⟩
    have hm2 : p2 ∈ store.get_active_projects.filter
        (fun p => strContainsCI p.name q) :=
      List.mem_filter.mpr
        ⟨List.mem_filter.mpr ⟨h2, by simp [hd2]⟩, hc2⟩
    have hlen := two_le_length_of_mem_ne hm1 hm2 hne
    rcases hLs : store.get_active_projects.filter
        (fun p => strContainsCI p.name q) with _ | ⟨x, _ | ⟨y, rest⟩⟩
    · rw [hLs] at hlen; simp at hlen
    · rw [hLs] at hlen; simp at hlen
    · refine ⟨?_, ?_, ?_⟩ <;> simp [Projects.delete_project, hLs]

/-- Sample second area whose name also matches "work". -/
def sArea2 : Area := { id := 11, name := "Workshop", slug := "workshop", deleted_at := none }

/-- Sample store with two fuzzy-colliding areas. -/
def sStore2 : Store := { sStore with areas := [sArea, sArea2] }

/-- C7 witness: in a store with active areas "Work" and "Workshop",
deleting area "work" yields `AreaNotFound` with no mutation; in `sStore`
with active projects "Launch" and "Lift", deleting project "l" yields
`AmbiguousProjectName ["Launch", "Lift"]` with no mutation. -/
theorem c7_ambiguity_asymmetry_witness :
    ((Areas.delete_area sStore2 77 "work").result =
        .error (.areaNotFound "work") ∧
      (Areas.delete_area sStore2 77 "work").store = sStore2) ∧
    ((Projects.delete_project sStore 77 "l").result =
        .error (.ambiguousProjectName ["Launch", "Lift"]) ∧
      (Projects.delete_project sStore 77 "l").store = sStore) :=
  ⟨⟨(c7_ambiguity_asymmetry.1 sStore2 77 "work" sArea sArea2
      (by decide) (by decide) (by decide) rfl rfl (by decide) (by decide)).1,
    (c7_ambiguity_asymmetry.1 sStore2 77 "work" sArea sArea2
      (by decide) (by decide) (by decide) rfl rfl (by decide) (by decide)).2.1⟩,
   ⟨by
      have := (c7_ambiguity_asymmetry.2 sStore 77 "l" sProject1 sProject2
        (by decide) (by decide) (by decide) rfl rfl (by decide) (by decide)).1
      rw [this]
      decide,
    (c7_ambiguity_asymmetry.2 sStore 77 "l" sProject1 sProject2
      (by decide) (by decide) (by decide) rfl rfl (by decide) (by decide)).2.1⟩⟩

/-- C10: cascade deletion stamps only children active at call time: in a
successful `delete_area` or `delete_project`, every task or project whose
`deleted_at` was already set is returned unchanged by the post-store
lookup under its id (its original timestamp survives), already-deleted
children never satisfy the counted cascade predicates, and the reported
counts are the sizes of the *active*-children filters only. -/
theorem c10_cascade_skips_deleted :
    (∀ (store : Store) (now : Timestamp) (name : String) (area : Area),
      store.get_active_areas.filter (fun a => strContainsCI a.name name) = [area] →
      (store.tasks.map Task.id).Nodup →
      (store.projects.map Project.id).Nodup →
      (store.areas.map Area.id).Nodup →
      (∀ (t : Task) (ts : Timestamp), t ∈ store.tasks → t.deleted_at = some ts →
        kfind Task.id t.id (Areas.delete_area store now name).store.tasks = some t) ∧
      (∀ (p : Project) (ts : Timestamp), p ∈ store.projects → p.deleted_at = some ts →
        kfind Project.id p.id
          (Areas.delete_area store now name).store.projects = some p) ∧
      (∀ (t : Task) (ts : Timestamp), t.deleted_at = some ts →
        areaCascTaskPred store area.id t = false) ∧
      (Areas.delete_area store now name).result = .ok
        { area := { area with deleted_at := some now }
          cascaded_projects_count :=
            ((store.get_projects_for_area area.id).filter
              (fun p => p.deleted_at.isNone)).length
          cascaded_tasks_count :=
            (store.tasks.filter (areaCascTaskPred store area.id)).length }) ∧
    (∀ (store : Store) (now : Timestamp) (name : String) (project : Project),
      store.get_active_projects.filter
        (fun p => strContainsCI p.name name) = [project] →
      (store.tasks.map Task.id).Nodup →
      (store.projects.map Project.id).Nodup →
      (∀ (t : Task) (ts : Timestamp), t ∈ store.tasks → t.deleted_at = some ts →
        kfind Task.id t.id
          (Projects.delete_project store now name).store.tasks = some t) ∧
      (∀ (t : Task) (ts : Timestamp), t.deleted_at = some ts →
        projIn [project.id] t = false) ∧
      (Projects.delete_project store now name).result = .ok
        { project := { project with deleted_at := some now }
          cascaded_tasks_count :=
            (store.tasks.filter (projIn [project.id])).length }) := by
  constructor
  · intro store now name area hres hnT hnP hnA
    have hclosed := delete_area_closed store now name area hres hnT hnP hnA
    have hpredT : ∀ (t : Task) (ts : Timestamp), t.deleted_at = some ts →
        areaCascTaskPred store area.id t = false := by
      intro t ts hdel
      simp [areaCascTaskPred, projIn, dirPred, hdel, Option.isNone]
    refine ⟨?_, ?_, hpredT, ?_⟩
    · intro t ts hmem hdel
      rw [hclosed]
      show kfind Task.id t.id ((areaCascPostStore store now area.id).tasks) = some t
      show kfind Task.id t.id (store.tasks.map (fun t =>
        if areaCascTaskPred store area.id t
        then { t with deleted_at := some now } else t)) = some t
      rw [kfind_map_keypres Task.id t.id _
        (fun u => by by_cases h : areaCascTaskPred store area.id u <;> simp [h])]
      rw [kfind_of_mem_nodup Task.id store.tasks hnT t hmem]
      simp [hpredT t ts hdel]
    · intro p ts hmem hdel
      rw [hclosed]
      show kfind Project.id p.id ((areaCascPostStore store now area.id).projects) =
        some p
      show kfind Project.id p.id (store.projects.map (fun p =>
        if (p.area_id == some area.id) && p.deleted_at.isNone
        then { p with deleted_at := some now } else p)) = some p
      rw [kfind_map_keypres Project.id p.id _
        (fun u => by
          by_cases h : ((u.area_id == some area.id) && u.deleted_at.isNone) <;>
            simp [h])]
      rw [kfind_of_mem_nodup Project.id store.projects hnP p hmem]
      simp [hdel, Option.isNone]
    · rw [hclosed]
  · intro store now name project hres hnT hnP
    have hclosed := delete_project_closed store now name project hres hnT hnP
    have hpredT : ∀ (t : Task) (ts : Timestamp), t.deleted_at = some ts →
        projIn [project.id] t = false := by
      intro t ts hdel
      simp [projIn, hdel, Option.isNone]
    refine ⟨?_, hpredT, ?_⟩
    · intro t ts hmem hdel
      rw [hclosed]
      show kfind Task.id t.id (store.tasks.map (stampIf now [project.id])) = some t
      rw [kfind_map_keypres Task.id t.id _ (stampIf_id now [project.id])]
      rw [kfind_of_mem_nodup Task.id store.tasks hnT t hmem]
      simp [stampIf, hpredT t ts hdel]
    · rw [hclosed]

/-- Sample already-deleted project in area `sArea`. -/
def sProjDel : Project :=
  { Project.default with
    id := 22
    name := "Old"
    area_id := some 10
    deleted_at := some 3 }

/-- Sample store for the C10 witness: area "Work" with two active projects
(each carrying one active task), one deleted project, and one deleted
task. -/
def sStoreC10 : Store :=
  { sStore with projects := [sProject1, sProject2, sProjDel] }

/-- C10 witness: deleting area "work" in `sStoreC10` leaves the deleted
task `sTask2` and the deleted project `sProjDel` untouched (original
timestamps 5 and 3 kept) while reporting only the active children;
deleting project "launch" counts only its one active task. -/
theorem c10_cascade_skips_deleted_witness :
    kfind Task.id sTask2.id
      (Areas.delete_area sStoreC10 88 "work").store.tasks = some sTask2 ∧
    kfind Project.id sProjDel.id
      (Areas.delete_area sStoreC10 88 "work").store.projects = some sProjDel ∧
    (Projects.delete_project sStoreC10 88 "launch").result = .ok
      { project := { sProject1 with deleted_at := some 88 }
        cascaded_tasks_count := 1 } :=
  ⟨(c10_cascade_skips_deleted.1 sStoreC10 88 "work" sArea
      (by decide) (by decide) (by decide) (by decide)).1 sTask2 5 (by decide) (by decide),
   (c10_cascade_skips_deleted.1 sStoreC10 88 "work" sArea
      (by decide) (by decide) (by decide) (by decide)).2.1 sProjDel 3
        (by decide) (by decide),
   by
    have h := (c10_cascade_skips_deleted.2 sStoreC10 88 "launch" sProject1
      (by decide) (by decide) (by decide)).2.2
    rw [h]
    decide⟩

/-- Helper: unpack membership of the one active task of a project. -/
theorem task_filter_singleton_props {store : Store} {pid : Uuid} {t1 : Task}
    (h : (store.get_tasks_for_project pid).filter
      (fun t => t.deleted_at.isNone) = [t1]) :
    t1 ∈ store.tasks ∧ t1.project_id = some pid ∧ t1.deleted_at = none := by
  have h1 : t1 ∈ (store.get_tasks_for_project pid).filter
      (fun t => t.deleted_at.isNone) := by
    rw [h]; exact List.mem_singleton.mpr rfl
  rcases List.mem_filter.mp h1 with ⟨h2, hdel⟩
  rcases List.mem_filter.mp h2 with ⟨h3, hpj⟩
  refine ⟨h3, ?_, ?_⟩
  · simpa using hpj
  · simpa [Option.isNone_iff_eq_none] using hdel

/-- C6: deleting an area that resolves uniquely, with exactly two active
projects each holding exactly one active task and no active area-direct
tasks, stamps `deleted_at = now` on exactly the area, the two projects and
the two tasks, reports both cascade counts as 2, and a subsequent
`restore_area` that resolves to the deleted area clears only the area's
own tombstone, leaving every cascaded project and task still deleted. -/
theorem c6_area_cascade_and_restore (store : Store) (now : Timestamp)
    (name : String) (a : Area) (p1 p2 : Project) (t1 t2 : Task)
    (hres : store.get_active_areas.filter
      (fun x => strContainsCI x.name name) = [a])
    (hp : (store.get_projects_for_area a.id).filter
      (fun p => p.deleted_at.isNone) = [p1, p2])
    (ht1 : (store.get_tasks_for_project p1.id).filter
      (fun t => t.deleted_at.isNone) = [t1])
    (ht2 : (store.get_tasks_for_project p2.id).filter
      (fun t => t.deleted_at.isNone) = [t2])
    (hdir : (store.get_tasks_for_area a.id).filter
      (fun t => t.deleted_at.isNone) = [])
    (hnT : (store.tasks.map Task.id).Nodup)
    (hnP : (store.projects.map Project.id).Nodup)
    (hnA : (store.areas.map Area.id).Nodup) :
    (Areas.delete_area store now name).result = .ok
      { area := { a with deleted_at := some now }
        cascaded_projects_count := 2
        cascaded_tasks_count := 2 } ∧
    (Areas.delete_area store now name).store.tasks = store.tasks.map (fun t =>
      if t.id = t1.id ∨ t.id = t2.id
      then { t with deleted_at := some now } else t) ∧
    (Areas.delete_area store now name).store.projects =
      store.projects.map (fun p =>
        if p.id = p1.id ∨ p.id = p2.id
        then { p with deleted_at := some now } else p) ∧
    (Areas.delete_area store now name).store.areas = store.areas.map (fun x =>
      if x.id = a.id then { x with deleted_at := some now } else x) ∧
    (∀ q2 : String,
      ((Areas.delete_area store now name).store.get_deleted_areas.filter
        (fun x => strContainsCI x.name q2) = [{ a with deleted_at := some now }]) →
      (Areas.restore_area (Areas.delete_area store now name).store q2).store.tasks =
        (Areas.delete_area store now name).store.tasks ∧
      (Areas.restore_area (Areas.delete_area store now name).store q2).store.projects =
        (Areas.delete_area store now name).store.projects ∧
      (Areas.restore_area (Areas.delete_area store now name).store q2).result =
        .ok { a with deleted_at := none }) := by
  have hclosed := delete_area_closed store now name a hres hnT hnP hnA
  -- memberships and distinctness
  have hp1m : p1 ∈ (store.get_projects_for_area a.id).filter
      (fun p => p.deleted_at.isNone) := by
    rw [hp]; exact List.mem_cons_self _ _
  have hp2m : p2 ∈ (store.get_projects_for_area a.id).filter
      (fun p => p.deleted_at.isNone) := by
    rw [hp]; exact List.mem_cons_of_mem _ (List.mem_cons_self _ _)
  have hp1mem : p1 ∈ store.projects :=
    List.mem_of_mem_filter (List.mem_of_mem_filter hp1m)
  have hp2mem : p2 ∈ store.projects :=
    List.mem_of_mem_filter (List.mem_of_mem_filter hp2m)
  have hpairnodup : (([p1, p2]).map Project.id).Nodup := by
    rw [← hp]
    apply List.Nodup.sublist _ hnP
    exact List.Sublist.map Project.id
      ((List.filter_sublist _).trans (List.filter_sublist _))
  have hp1p2 : p1.id ≠ p2.id := by
    simpa using (List.nodup_cons.mp hpairnodup).1
  rcases task_filter_singleton_props ht1 with ⟨ht1mem, ht1pj, ht1del⟩
  rcases task_filter_singleton_props ht2 with ⟨ht2mem, ht2pj, ht2del⟩
  have ht1t2 : t1 ≠ t2 := by
    intro hEq
    rw [hEq, ht2pj] at ht1pj
    exact hp1p2 (by simpa using ht1pj.symm)
  have ht1t2id : t1.id ≠ t2.id := fun hEq =>
    ht1t2 (List.inj_on_of_nodup_map hnT ht1mem ht2mem hEq)
  -- pointwise characterization of the cascade predicate
  have hcascIff : ∀ t ∈ store.tasks,
      (areaCascTaskPred store a.id t = true ↔ (t = t1 ∨ t = t2)) := by
    intro t htm
    constructor
    · intro hc
      simp only [areaCascTaskPred, Bool.or_eq_true] at hc
      rcases hc with hpin | hdp
      · rcases (projIn_true_iff _ t).mp hpin with ⟨hdel, pidv, hpj, hpidv⟩
        rw [hp] at hpidv
        simp only [List.map_cons, List.map_nil, List.mem_cons,
          List.mem_singleton, List.not_mem_nil, or_false] at hpidv
        rcases hpidv with h | h
        · left
          have : t ∈ (store.get_tasks_for_project p1.id).filter
              (fun t => t.deleted_at.isNone) := by
            refine List.mem_filter.mpr ⟨List.mem_filter.mpr ⟨htm, ?_⟩, ?_⟩
            · simp [hpj, h]
            · simp [hdel]
          rw [ht1] at this
          exact List.mem_singleton.mp this
        · right
          have : t ∈ (store.get_tasks_for_project p2.id).filter
              (fun t => t.deleted_at.isNone) := by
            refine List.mem_filter.mpr ⟨List.mem_filter.mpr ⟨htm, ?_⟩, ?_⟩
            · simp [hpj, h]
            · simp [hdel]
          rw [ht2] at this
          exact List.mem_singleton.mp this
      · exfalso
        have hmem2 : t ∈ (store.get_tasks_for_area a.id).filter
            (fun t => t.deleted_at.isNone) := by
          simp only [dirPred, Bool.and_eq_true] at hdp
          rcases hdp with ⟨hdel, harea, hpn⟩
          refine List.mem_filter.mpr ⟨List.mem_filter.mpr ⟨htm, ?_⟩, hdel⟩
          simp only [Bool.and_eq_true]
          exact ⟨harea, hpn⟩
        rw [hdir] at hmem2
        cases hmem2
    · intro hor
      simp only [areaCascTaskPred, Bool.or_eq_true]
      left
      apply (projIn_true_iff _ t).mpr
      rcases hor with rfl | rfl
      · refine ⟨ht1del, p1.id, ht1pj, ?_⟩
        rw [hp]
        simp
      · refine ⟨ht2del, p2.id, ht2pj, ?_⟩
        rw [hp]
        simp
  have hidIff : ∀ t ∈ store.tasks,
      ((t.id = t1.id ∨ t.id = t2.id) ↔ (t = t1 ∨ t = t2)) := by
    intro t htm
    constructor
    · rintro (h | h)
      · exact Or.inl (List.inj_on_of_nodup_map hnT htm ht1mem h)
      · exact Or.inr (List.inj_on_of_nodup_map hnT htm ht2mem h)
    · rintro (rfl | rfl) <;> simp
  -- pointwise characterization of the project predicate
  have hprojIff : ∀ p ∈ store.projects,
      (((p.area_id == some a.id) && p.deleted_at.isNone) = true ↔
        (p = p1 ∨ p = p2)) := by
    intro p hpm
    constructor
    · intro hc
      have : p ∈ (store.get_projects_for_area a.id).filter
          (fun p => p.deleted_at.isNone) := by
        simp only [Bool.and_eq_true] at hc
        rcases hc with ⟨h1, h2⟩
        exact List.mem_filter.mpr ⟨List.mem_filter.mpr ⟨hpm, h1⟩, h2⟩
      rw [hp] at this
      simpa using this
    · rintro (rfl | rfl)
      · rcases List.mem_filter.mp hp1m with ⟨h2, hdel⟩
        rcases List.mem_filter.mp h2 with ⟨_, harea⟩
        simp [harea, hdel]
      · rcases List.mem_filter.mp hp2m with ⟨h2, hdel⟩
        rcases List.mem_filter.mp h2 with ⟨_, harea⟩
        simp [harea, hdel]
  have hpidIff : ∀ p ∈ store.projects,
      ((p.id = p1.id ∨ p.id = p2.id) ↔ (p = p1 ∨ p = p2)) := by
    intro p hpm
    constructor
    · rintro (h | h)
      · exact Or.inl (List.inj_on_of_nodup_map hnP hpm hp1mem h)
      · exact Or.inr (List.inj_on_of_nodup_map hnP hpm hp2mem h)
    · rintro (rfl | rfl) <;> simp
  -- count of cascaded tasks
  have hnodupTasks : store.tasks.Nodup := hnT.of_map
  have hcount : (store.tasks.filter (areaCascTaskPred store a.id)).length = 2 := by
    have h1 : store.tasks.filter (areaCascTaskPred store a.id) =
        store.tasks.filter (fun t => (t == t1) || (t == t2)) := by
      apply List.filter_congr
      intro t htm
      rcases hc : areaCascTaskPred store a.id t with _ | _
      · symm
        apply Bool.eq_false_iff.mpr
        intro hor
        have : t = t1 ∨ t = t2 := by
          simp only [Bool.or_eq_true] at hor
          rcases hor with h | h
          · exact Or.inl (by simpa using h)
          · exact Or.inr (by simpa using h)
        have := (hcascIff t htm).mpr this
        rw [this] at hc
        cases hc
      · symm
        have := (hcascIff t htm).mp hc
        rcases this with rfl | rfl <;> simp
    rw [h1, length_filter_or_disjoint _ _ _ (fun t _ => by
      rintro ⟨ha, hb⟩
      exact ht1t2 (by
        have h1 : t = t1 := by simpa using ha
        have h2 : t = t2 := by simpa using hb
        rw [← h1, h2]))]
    have c1 : (store.tasks.filter (fun t => t == t1)).length = 1 := by
      rw [← List.countP_eq_length_filter]
      have : store.tasks.count t1 = 1 :=
        List.count_eq_one_of_mem hnodupTasks ht1mem
      simpa [List.count] using this
    have c2 : (store.tasks.filter (fun t => t == t2)).length = 1 := by
      rw [← List.countP_eq_length_filter]
      have : store.tasks.count t2 = 1 :=
        List.count_eq_one_of_mem hnodupTasks ht2mem
      simpa [List.count] using this
    rw [c1, c2]
  refine ⟨?_, ?_, ?_, ?_, ?_⟩
  · rw [hclosed]
    simp only [Except.ok.injEq, Areas.DeleteAreaResult.mk.injEq]
    refine ⟨trivial, ?_, hcount⟩
    rw [hp]
    rfl
  · rw [hclosed]
    show store.tasks.map (fun t =>
      if areaCascTaskPred store a.id t
      then { t with deleted_at := some now } else t) = _
    apply List.map_congr_left
    intro t htm
    by_cases h : (t = t1 ∨ t = t2)
    · rw [if_pos ((hcascIff t htm).mpr h), if_pos ((hidIff t htm).mpr h)]
    · rw [if_neg (fun hb => h ((hcascIff t htm).mp hb)),
        if_neg (fun hor => h ((hidIff t htm).mp hor))]
  · rw [hclosed]
    show store.projects.map (fun p =>
      if (p.area_id == some a.id) && p.deleted_at.isNone
      then { p with deleted_at := some now } else p) = _
    apply List.map_congr_left
    intro p hpm
    by_cases h : (p = p1 ∨ p = p2)
    · rw [if_pos ((hprojIff p hpm).mpr h), if_pos ((hpidIff p hpm).mpr h)]
    · rw [if_neg (fun hb => h ((hprojIff p hpm).mp hb)),
        if_neg (fun hor => h ((hpidIff p hpm).mp hor))]
  · rw [hclosed]
    rfl
  · intro q2 hres2
    have hnA2 : (((Areas.delete_area store now name).store.areas).map
        Area.id).Nodup := by
      rw [hclosed]
      show ((store.areas.map (fun x =>
        if x.id = a.id then { x with deleted_at := some now } else x)).map
          Area.id).Nodup
      rw [List.map_map]
      have hsame : store.areas.map (Area.id ∘ (fun x =>
          if x.id = a.id then { x with deleted_at := some now } else x)) =
          store.areas.map Area.id :=
        List.map_congr_left (fun x _ => by
          by_cases h : x.id = a.id <;> simp [Function.comp, h])
      rw [hsame]
      exact hnA
    have hrc := restore_area_closed ((Areas.delete_area store now name).store)
      q2 { a with deleted_at := some now } hres2 hnA2
    rw [hrc]
    exact ⟨rfl, rfl, rfl⟩

/-- C6 witness: deleting area "work" in `sStore` (projects "Launch" and
"Lift", one active task each, no direct tasks) reports counts (2, 2), and
restoring "work" afterwards leaves the cascaded projects and tasks
deleted. -/
theorem c6_area_cascade_and_restore_witness :
    (Areas.delete_area sStore 99 "work").result = .ok
      { area := { sArea with deleted_at := some 99 }
        cascaded_projects_count := 2
        cascaded_tasks_count := 2 } ∧
    (Areas.restore_area (Areas.delete_area sStore 99 "work").store
        "work").store.projects =
      (Areas.delete_area sStore 99 "work").store.projects ∧
    (Areas.restore_area (Areas.delete_area sStore 99 "work").store
        "work").store.tasks =
      (Areas.delete_area sStore 99 "work").store.tasks :=
  ⟨(c6_area_cascade_and_restore sStore 99 "work" sArea sProject1 sProject2
      sTaskP1 sTaskP2 (by decide) (by decide) (by decide) (by decide)
      (by decide) (by decide) (by decide) (by decide)).1,
   ((c6_area_cascade_and_restore sStore 99 "work" sArea sProject1 sProject2
      sTaskP1 sTaskP2 (by decide) (by decide) (by decide) (by decide)
      (by decide) (by decide) (by decide) (by decide)).2.2.2.2 "work"
        (by decide)).2.1,
   ((c6_area_cascade_and_restore sStore 99 "work" sArea sProject1 sProject2
      sTaskP1 sTaskP2 (by decide) (by decide) (by decide) (by decide)
      (by decide) (by decide) (by decide) (by decide)).2.2.2.2 "work"
        (by decide)).1⟩

/-- C4 counterexample: the claim fails for numeric identifiers. In
`sStore` task number 42 (`sTask3`) already has `completed_at = some 7`,
yet `complete_task` on the identifier "42" does NOT return `TaskNotFound`:
it succeeds and re-completes the task with the fresh instant 100. -/
theorem c4_completed_task_recompleted_by_number :
    (Tasks.complete_task sStore 100 "42").result =
      .ok { sTask3 with completed_at := some 100 } ∧
    sTask3.completed_at = some 7 ∧
    parseU64 "42" = some 42 := by
  refine ⟨by decide, by decide, by decide⟩

/-- C4 amended: only the fuzzy-title path excludes already-completed
tasks: when the identifier does not parse as an integer and every active
title match is already completed, `complete_task` returns `TaskNotFound`
with no mutation and no save; an already-completed task reached through
its parseable task number, by contrast, is found and re-completed with a
fresh timestamp. -/
theorem c4_completed_excluded_only_from_fuzzy_pool :
    (∀ (store : Store) (now : Timestamp) (ident : String),
      parseU64 ident = none →
      (∀ t ∈ store.tasks, t.deleted_at = none →
        strContainsCI t.title ident = true → t.completed_at ≠ none) →
      (Tasks.complete_task store now ident).result =
        .error (.taskNotFound ident) ∧
      (Tasks.complete_task store now ident).store = store ∧
      (Tasks.complete_task store now ident).saves = []) ∧
    (∀ (store : Store) (now : Timestamp) (ident : String) (n : Nat)
        (t : Task) (cAt : Timestamp),
      parseU64 ident = some n → store.get_task_by_number n = some t →
      t.completed_at = some cAt →
      (Tasks.complete_task store now ident).result =
        .ok { t with completed_at := some now }) := by
  constructor
  · intro store now ident hparse hall
    have hpool : (store.get_active_tasks.filter
        (fun t => t.completed_at.isNone)).filter
          (fun t => strContainsCI t.title ident) = [] := by
      apply List.filter_eq_nil_iff.mpr
      intro t ht
      rcases List.mem_filter.mp ht with ⟨h1, hcomp⟩
      rcases List.mem_filter.mp h1 with ⟨h2, hdel⟩
      intro hmatch
      exact hall t h2 (by simpa [Option.isNone_iff_eq_none] using hdel)
        (by simpa using hmatch)
        (by simpa [Option.isNone_iff_eq_none] using hcomp)
    refine ⟨?_, ?_, ?_⟩ <;>
      simp [Tasks.complete_task, Tasks.complete_resolution, hparse, hpool]
  · intro store now ident n t cAt hparse hlook _
    simp [Tasks.complete_task, Tasks.complete_resolution, hparse, hlook]

/-- C4 amended witness: in `sStore`, the fuzzy identifier "see" matches
only the completed task `sTask3`, so completion is `TaskNotFound` and the
store is untouched; the numeric identifier "42" reaches the completed
`sTask3` and re-completes it. -/
theorem c4_completed_excluded_only_from_fuzzy_pool_witness :
    ((Tasks.complete_task sStore 100 "see").result =
        .error (.taskNotFound "see") ∧
      (Tasks.complete_task sStore 100 "see").store = sStore) ∧
    (Tasks.complete_task sStore 100 "42").result =
      .ok { sTask3 with completed_at := some 100 } :=
  ⟨⟨(c4_completed_excluded_only_from_fuzzy_pool.1 sStore 100 "see"
      (by decide) (by decide)).1,
    (c4_completed_excluded_only_from_fuzzy_pool.1 sStore 100 "see"
      (by decide) (by decide)).2.1⟩,
   c4_completed_excluded_only_from_fuzzy_pool.2 sStore 100 "42" 42 sTask3 7
     (by decide) (by decide) (by decide)⟩

/-- C5: task identifier resolution in `complete_task` and `delete_task` is
two-phase. For inputs that parse as an integer `n`, resolution is exactly
`get_task_by_number n` (reaching any task carrying `n`, deleted ones
included) and never falls back to fuzzy matching even when no task
carries `n` (it errors `TaskNotFound` instead); for inputs that fail to
parse, any successfully resolved task comes from the case-insensitive
title-containment pool restricted by the operation's own filter. -/
theorem c5_two_phase_resolution :
    (∀ (store : Store) (now : Timestamp) (ident : String) (n : Nat),
      parseU64 ident = some n →
      (store.get_task_by_number n = none →
        (Tasks.complete_task store now ident).result =
          .error (.taskNotFound ident) ∧
        (Tasks.complete_task store now ident).store = store) ∧
      (∀ t, store.get_task_by_number n = some t →
        (Tasks.complete_task store now ident).result =
          .ok { t with completed_at := some now })) ∧
    (∀ (store : Store) (now : Timestamp) (ident : String) (n : Nat),
      parseU64 ident = some n →
      (store.get_task_by_number n = none →
        (Tasks.delete_task store now ident).result =
          .error (.taskNotFound ident) ∧
        (Tasks.delete_task store now ident).store = store) ∧
      (∀ t, store.get_task_by_number n = some t →
        (Tasks.delete_task store now ident).result =
          (if t.deleted_at.isSome then .error (.taskAlreadyDeleted t.title)
           else .ok { t with deleted_at := some now }))) ∧
    (∀ (store : Store) (now : Timestamp) (ident : String) (t2 : Task),
      parseU64 ident = none →
      (Tasks.complete_task store now ident).result = .ok t2 →
      ∃ t, t ∈ store.tasks ∧ t.deleted_at = none ∧ t.completed_at = none ∧
        strContainsCI t.title ident = true ∧
        t2 = { t with completed_at := some now }) ∧
    (∀ (store : Store) (now : Timestamp) (ident : String) (t2 : Task),
      parseU64 ident = none →
      (Tasks.delete_task store now ident).result = .ok t2 →
      ∃ t, t ∈ store.tasks ∧ t.deleted_at = none ∧
        strContainsCI t.title ident = true ∧
        t2 = { t with deleted_at := some now }) := by
  refine ⟨?_, ?_, ?_, ?_⟩
  · intro store now ident n hparse
    constructor
    · intro hnone
      constructor <;>
        simp [Tasks.complete_task, Tasks.complete_resolution, hparse, hnone]
    · intro t hsome
      simp [Tasks.complete_task, Tasks.complete_resolution, hparse, hsome]
  · intro store now ident n hparse
    constructor
    · intro hnone
      constructor <;>
        simp [Tasks.delete_task, Tasks.delete_resolution, hparse, hnone]
    · intro t hsome
      by_cases hd : t.deleted_at.isSome <;>
        simp [Tasks.delete_task, Tasks.delete_resolution, hparse, hsome, hd]
  · intro store now ident t2 hparse hok
    rcases hpool : (store.get_active_tasks.filter
        (fun t => t.completed_at.isNone)).filter
          (fun t => strContainsCI t.title ident) with _ | ⟨t, _ | ⟨u, rest⟩⟩
    · simp [Tasks.complete_task, Tasks.complete_resolution, hparse, hpool] at hok
    · have hm : t ∈ (store.get_active_tasks.filter
          (fun t => t.completed_at.isNone)).filter
            (fun t => strContainsCI t.title ident) := by
        rw [hpool]; exact List.mem_singleton.mpr rfl
      rcases List.mem_filter.mp hm with ⟨h1, hmatch⟩
      rcases List.mem_filter.mp h1 with ⟨h2, hcomp⟩
      rcases List.mem_filter.mp h2 with ⟨h3, hdel⟩
      refine ⟨t, h3, by simpa [Option.isNone_iff_eq_none] using hdel,
        by simpa [Option.isNone_iff_eq_none] using hcomp, hmatch, ?_⟩
      simp [Tasks.complete_task, Tasks.complete_resolution, hparse, hpool] at hok
      exact hok.symm
    · simp [Tasks.complete_task, Tasks.complete_resolution, hparse, hpool] at hok
  · intro store now ident t2 hparse hok
    rcases hpool : store.get_active_tasks.filter
        (fun t => strContainsCI t.title ident) with _ | ⟨t, _ | ⟨u, rest⟩⟩
    · simp [Tasks.delete_task, Tasks.delete_resolution, hparse, hpool] at hok
    · have hm : t ∈ store.get_active_tasks.filter
          (fun t => strContainsCI t.title ident) := by
        rw [hpool]; exact List.mem_singleton.mpr rfl
      rcases List.mem_filter.mp hm with ⟨h2, hmatch⟩
      rcases List.mem_filter.mp h2 with ⟨h3, hdel⟩
      have hdel2 : t.deleted_at = none := by
        simpa [Option.isNone_iff_eq_none] using hdel
      refine ⟨t, h3, hdel2, hmatch, ?_⟩
      simp [Tasks.delete_task, Tasks.delete_resolution, hparse, hpool,
        hdel2] at hok
      exact hok.symm
    · simp [Tasks.delete_task, Tasks.delete_resolution, hparse, hpool] at hok

/-- C5 witness: in `sStore` the identifier "42" parses numerically and
resolves to the task numbered 42 (`sTask3`) even though the active task
`sTask6` ("route 42 planning") also contains "42" in its title; the
identifier "7" parses but no task carries 7, so `complete_task` errors
without falling back to fuzzy matching. -/
theorem c5_two_phase_resolution_witness :
    (Tasks.complete_task sStore 100 "42").result =
      .ok { sTask3 with completed_at := some 100 } ∧
    strContainsCI sTask6.title "42" = true ∧
    ((Tasks.complete_task sStore 100 "7").result =
        .error (.taskNotFound "7") ∧
      (Tasks.complete_task sStore 100 "7").store = sStore) :=
  ⟨(c5_two_phase_resolution.1 sStore 100 "42" 42 (by decide)).2 sTask3
      (by decide),
   by decide,
   (c5_two_phase_resolution.1 sStore 100 "7" 7 (by decide)).1 (by decide)⟩

/-- Helper: rebuilding a key-distinct entity list by repeated
`HashMap::insert` reproduces the list. -/
theorem foldl_kinsert_nodup {α} (key : α → Uuid) :
    ∀ (l acc : List α), ((acc ++ l).map key).Nodup →
      l.foldl (fun m x => kinsert key x m) acc = acc ++ l := by
  intro l
  induction l with
  | nil => intro acc _; simp
  | cons x t ih =>
    intro acc hn
    have hnx : key x ∉ acc.map key := by
      rw [List.map_append] at hn
      intro hmem
      rcases List.mem_map.mp hmem with ⟨y, hy, hky⟩
      have hxk : key x ∈ (x :: t).map key := by simp
      exact (List.disjoint_of_nodup_append hn) (hky ▸ hmem) hxk
    have hany : (acc.any fun y => key y == key x) = false := by
      apply Bool.eq_false_iff.mpr
      intro hanyt
      rcases List.any_eq_true.mp hanyt with ⟨y, hy, hbeq⟩
      exact hnx (List.mem_map.mpr ⟨y, hy, by simpa using hbeq⟩)
    have hki : kinsert key x acc = acc ++ [x] := by
      unfold kinsert
      rw [if_neg (by simp [hany])]
    rw [List.foldl_cons, hki, ih (acc ++ [x]) (by
      rw [List.append_assoc]
      simpa using hn)]
    rw [List.append_assoc]
    rfl

/-- C8: converting the working store to the storage representation and
back is the identity (same version, counter, and exactly the same tasks,
projects and areas), for every store whose entity maps are key-distinct —
which is every store reachable through the `HashMap`-backed code. -/
theorem c8_to_stored_from_stored_roundtrip (s : Store)
    (hnT : (s.tasks.map Task.id).Nodup)
    (hnP : (s.projects.map Project.id).Nodup)
    (hnA : (s.areas.map Area.id).Nodup) :
    Store.from_stored s.to_stored = s := by
  cases s with
  | mk v n ts ps as =>
    simp only [Store.from_stored, Store.to_stored, Store.mk.injEq]
    refine ⟨trivial, trivial, ?_, ?_, ?_⟩
    · have := foldl_kinsert_nodup Task.id ts [] (by simpa using hnT)
      simpa using this
    · have := foldl_kinsert_nodup Project.id ps [] (by simpa using hnP)
      simpa using this
    · have := foldl_kinsert_nodup Area.id as [] (by simpa using hnA)
      simpa using this

/-- C8 witness: the round trip is the identity on the concrete `sStore`. -/
theorem c8_to_stored_from_stored_roundtrip_witness :
    Store.from_stored sStore.to_stored = sStore :=
  c8_to_stored_from_stored_roundtrip sStore (by decide) (by decide) (by decide)

end Tdo
